import Mathlib

/-!
# Verification of the tripcode derivation and codec engine

A shallow embedding, in Lean 4, of the tripcode library's hash-derivation
and text-codec core (`src/lib.rs`, `src/hash/mod.rs`, `src/util.rs`).
Passwords, escaped streams and tripcode texts are `List Nat` of byte
values; machine integers (`u64`, `u32`, `u8`) are `Nat` with explicit
`% 2 ^ w` where the original arithmetic can wrap.

Two modules of the crate are not part of the sources at hand and are
modelled from the specification instead: the DES block cipher
(`des::zero_cipher_58`) and the per-character radix-64 alphabets
(`hash::enc_dec`).  Each such definition carries a doc comment starting
with `Modelled from the spec:`.
-/

namespace Tripcode

/-! ## Password escaping (`util.rs` macros `fourchan_escape!` / `mona_escape!`) -/

/-- 4chan's HTML escape table: `"` `&` `<` `>` go to their entities
(`escape!` instance `fourchan_escape!` in `util.rs`).  `none` means the
byte is passed through unescaped. -/
def fourchan_escape (c : Nat) : Option (List Nat) :=
  if c = 34 then some [38, 113, 117, 111, 116, 59]      -- '"'  -> "&quot;"
  else if c = 38 then some [38, 97, 109, 112, 59]       -- '&'  -> "&amp;"
  else if c = 60 then some [38, 108, 116, 59]           -- '<'  -> "&lt;"
  else if c = 62 then some [38, 103, 116, 59]           -- '>'  -> "&gt;"
  else none

/-- 2channel's HTML escape table: `"` `<` `>` only, `&` is not escaped
(`escape!` instance `mona_escape!` in `util.rs`). -/
def mona_escape (c : Nat) : Option (List Nat) :=
  if c = 34 then some [38, 113, 117, 111, 116, 59]      -- '"'  -> "&quot;"
  else if c = 60 then some [38, 108, 116, 59]           -- '<'  -> "&lt;"
  else if c = 62 then some [38, 103, 116, 59]           -- '>'  -> "&gt;"
  else none

/-- The escaped byte stream of a password: each byte is replaced by its
entity when the escape table maps it, and kept otherwise.  Consumers in
the crate stream this sequence without materializing it; this definition
is the sequence they stream. -/
def escape_stream (esc : Nat → Option (List Nat)) (p : List Nat) : List Nat :=
  p.flatMap fun c => (esc c).getD [c]

/-! ## Byte packing (`util.rs`) -/

/-- Byte window packing helper: places the bytes of `l` big-endian at byte
positions `j, j+1, …` of an 8-byte window (byte position 0 is the most
significant byte), dropping everything from position 8 on.
`packFrom 0 l` is `pack_u64_be l`. -/
def packFrom (j : Nat) (l : List Nat) : Nat :=
  match l with
  | [] => 0
  | b :: rest => if j < 8 then b * 2 ^ (8 * (7 - j)) + packFrom (j + 1) rest else 0

/-- `pack_u64_be` from `util.rs`: reinterprets up to the first 8 bytes of
the array as a 64-bit big-endian value, treating out-of-bounds bytes as
zero. -/
def pack_u64_be (l : List Nat) : Nat := packFrom 0 l

/-- `secret_to_key` from `util.rs`: pack the password big-endian, shift
left by one (wrapping in `u64`) and clear every 8th (DES parity) bit. -/
def secret_to_key (p : List Nat) : Nat :=
  ((pack_u64_be p * 2) % 2 ^ 64) &&& 0xFEFEFEFEFEFEFEFE

/-! ## Katakana detection (`util.rs`) -/

/-- `sc_password_starts_with_katakana` from `util.rs`: `true` when the
bytes at positions 1–3 spell a UTF-8 half-width katakana (trie
`EF BD A1-BF` / `EF BE 80-9F`).  The source indexes the slice directly;
here out-of-bounds positions read as 0 (which can never satisfy the
trie), and the checked variant below accounts for the panics. -/
def sc_password_starts_with_katakana (p : List Nat) : Bool :=
  if p.getD 1 0 = 0xEF then
    if p.getD 2 0 = 0xBD then
      decide (0xA1 ≤ p.getD 3 0 ∧ p.getD 3 0 ≤ 0xBF)
    else if p.getD 2 0 = 0xBE then
      decide (0x80 ≤ p.getD 3 0 ∧ p.getD 3 0 ≤ 0x9F)
    else false
  else false

/-! ## Fixed decoding tables (`util.rs`) -/

/-- The 256-entry lenient salt table from `decode_salt` in `util.rs`. -/
def SALT_DECODING : List Nat := [
  0, 0, 0, 0, 0, 0, 0, 0, 0, 0, 0, 0, 0, 0, 0, 0,
  0, 0, 0, 0, 0, 0, 0, 0, 0, 0, 0, 0, 0, 0, 0, 0,
  0, 0, 0, 0, 0, 0, 0, 0, 0, 0, 0, 0, 0, 0, 0, 1,
  2, 3, 4, 5, 6, 7, 8, 9, 10, 11, 12, 13, 14, 15, 16, 17,
  18, 12, 13, 14, 15, 16, 17, 18, 19, 20, 21, 22, 23, 24, 25, 26,
  27, 28, 29, 30, 31, 32, 33, 34, 35, 36, 37, 38, 39, 40, 41, 42,
  43, 38, 39, 40, 41, 42, 43, 44, 45, 46, 47, 48, 49, 50, 51, 52,
  53, 54, 55, 56, 57, 58, 59, 60, 61, 62, 63, 0, 0, 0, 0, 0,
  0, 0, 0, 0, 0, 0, 0, 0, 0, 0, 0, 0, 0, 0, 0, 0,
  0, 0, 0, 0, 0, 0, 0, 0, 0, 0, 0, 0, 0, 0, 0, 0,
  0, 0, 0, 0, 0, 0, 0, 0, 0, 0, 0, 0, 0, 0, 0, 0,
  0, 0, 0, 0, 0, 0, 0, 0, 0, 0, 0, 0, 0, 0, 0, 0,
  0, 0, 0, 0, 0, 0, 0, 0, 0, 0, 0, 0, 0, 0, 0, 0,
  0, 0, 0, 0, 0, 0, 0, 0, 0, 0, 0, 0, 0, 0, 0, 0,
  0, 0, 0, 0, 0, 0, 0, 0, 0, 0, 0, 0, 0, 0, 0, 0,
  0, 0, 0, 0, 0, 0, 0, 0, 0, 0, 0, 0, 0, 0, 0, 0
]

/-- `decode_salt` from `util.rs`: map both bytes through the lenient
table and assemble the 12-bit salt at bit positions 18–29 of a `u32`. -/
def decode_salt (salt1 salt2 : Nat) : Nat :=
  (SALT_DECODING.getD salt1 0 * 2 ^ 26) ||| (SALT_DECODING.getD salt2 0 * 2 ^ 18)

/-- The 256-entry strict salt table from `decode_salt_strict` in
`util.rs` (`0x40` = invalid). -/
def SALT_DECODING_STRICT : List Nat := [
  64, 64, 64, 64, 64, 64, 64, 64, 64, 64, 64, 64, 64, 64, 64, 64,
  64, 64, 64, 64, 64, 64, 64, 64, 64, 64, 64, 64, 64, 64, 64, 64,
  64, 64, 64, 64, 64, 64, 64, 64, 64, 64, 64, 64, 64, 64, 0, 1,
  2, 3, 4, 5, 6, 7, 8, 9, 10, 11, 64, 64, 64, 64, 64, 64,
  64, 12, 13, 14, 15, 16, 17, 18, 19, 20, 21, 22, 23, 24, 25, 26,
  27, 28, 29, 30, 31, 32, 33, 34, 35, 36, 37, 64, 64, 64, 64, 64,
  64, 38, 39, 40, 41, 42, 43, 44, 45, 46, 47, 48, 49, 50, 51, 52,
  53, 54, 55, 56, 57, 58, 59, 60, 61, 62, 63, 64, 64, 64, 64, 64,
  64, 64, 64, 64, 64, 64, 64, 64, 64, 64, 64, 64, 64, 64, 64, 64,
  64, 64, 64, 64, 64, 64, 64, 64, 64, 64, 64, 64, 64, 64, 64, 64,
  64, 64, 64, 64, 64, 64, 64, 64, 64, 64, 64, 64, 64, 64, 64, 64,
  64, 64, 64, 64, 64, 64, 64, 64, 64, 64, 64, 64, 64, 64, 64, 64,
  64, 64, 64, 64, 64, 64, 64, 64, 64, 64, 64, 64, 64, 64, 64, 64,
  64, 64, 64, 64, 64, 64, 64, 64, 64, 64, 64, 64, 64, 64, 64, 64,
  64, 64, 64, 64, 64, 64, 64, 64, 64, 64, 64, 64, 64, 64, 64, 64,
  64, 64, 64, 64, 64, 64, 64, 64, 64, 64, 64, 64, 64, 64, 64, 64
]

/-- `decode_salt_strict` from `util.rs`: like `decode_salt` but an
out-of-alphabet byte (table value `0x40`) makes the whole decode fail. -/
def decode_salt_strict (salt1 salt2 : Nat) : Option Nat :=
  let d1 := SALT_DECODING_STRICT.getD salt1 0
  let d2 := SALT_DECODING_STRICT.getD salt2 0
  if d1 ≤ 0x3F then
    if d2 ≤ 0x3F then some ((d1 * 2 ^ 26) ||| (d2 * 2 ^ 18)) else none
  else none

/-- The 256-entry hexadecimal digit table from `hex_to_i` in `util.rs`
(`0x10` = invalid). -/
def HEX_DECODING : List Nat := [
  16, 16, 16, 16, 16, 16, 16, 16, 16, 16, 16, 16, 16, 16, 16, 16,
  16, 16, 16, 16, 16, 16, 16, 16, 16, 16, 16, 16, 16, 16, 16, 16,
  16, 16, 16, 16, 16, 16, 16, 16, 16, 16, 16, 16, 16, 16, 16, 16,
  0, 1, 2, 3, 4, 5, 6, 7, 8, 9, 16, 16, 16, 16, 16, 16,
  16, 10, 11, 12, 13, 14, 15, 16, 16, 16, 16, 16, 16, 16, 16, 16,
  16, 16, 16, 16, 16, 16, 16, 16, 16, 16, 16, 16, 16, 16, 16, 16,
  16, 10, 11, 12, 13, 14, 15, 16, 16, 16, 16, 16, 16, 16, 16, 16,
  16, 16, 16, 16, 16, 16, 16, 16, 16, 16, 16, 16, 16, 16, 16, 16,
  16, 16, 16, 16, 16, 16, 16, 16, 16, 16, 16, 16, 16, 16, 16, 16,
  16, 16, 16, 16, 16, 16, 16, 16, 16, 16, 16, 16, 16, 16, 16, 16,
  16, 16, 16, 16, 16, 16, 16, 16, 16, 16, 16, 16, 16, 16, 16, 16,
  16, 16, 16, 16, 16, 16, 16, 16, 16, 16, 16, 16, 16, 16, 16, 16,
  16, 16, 16, 16, 16, 16, 16, 16, 16, 16, 16, 16, 16, 16, 16, 16,
  16, 16, 16, 16, 16, 16, 16, 16, 16, 16, 16, 16, 16, 16, 16, 16,
  16, 16, 16, 16, 16, 16, 16, 16, 16, 16, 16, 16, 16, 16, 16, 16,
  16, 16, 16, 16, 16, 16, 16, 16, 16, 16, 16, 16, 16, 16, 16, 16
]

/-- `hex_to_i` from `util.rs`: hexadecimal digit value of a byte, `0x10`
when the byte is not a hex digit. -/
def hex_to_i (c : Nat) : Nat := HEX_DECODING.getD c 0

/-! ## The DES block cipher (`des.rs`) -/

/-- Modelled from the spec: the module `des.rs` containing the DES-based
one-way function is absent from the sources at hand.  The spec describes
`zero_cipher_58 key salt` as encrypting an all-zero 64-bit block under a
DES-compatible cipher keyed by `key` and perturbed by the 12-bit `salt`,
keeping only the top 58 bits of the ciphertext; it fixes no further
internals.  It is modelled here as an unspecified but definite mixing
function returning a 64-bit value whose low 6 bits are clear, which is
all the claims below depend on. -/
def zero_cipher_58 (key salt : Nat) : Nat :=
  ((key * 0x9E3779B97F4A7C15 + salt * 0xC2B2AE3D27D4EB4F + 0x2545F4914F6CDD1D)
    % 2 ^ 64) / 64 * 64

/-! ## SHA-1 (external `crypto` crate) -/

/-- 32-bit left rotation by `k` (for `x < 2 ^ 32`, `k ≤ 32`). -/
def rotl32 (k x : Nat) : Nat := (x * 2 ^ k + x / 2 ^ (32 - k)) % 2 ^ 32

/-- Big-endian bytes of a 64-bit value, most significant first. -/
def be8 (n : Nat) : List Nat :=
  [n / 2 ^ 56 % 256, n / 2 ^ 48 % 256, n / 2 ^ 40 % 256, n / 2 ^ 32 % 256,
   n / 2 ^ 24 % 256, n / 2 ^ 16 % 256, n / 2 ^ 8 % 256, n % 256]

/-- SHA-1 message padding: `0x80`, zeros to 56 mod 64, then the bit
length as a big-endian 64-bit value. -/
def sha1_pad (msg : List Nat) : List Nat :=
  msg ++ [0x80] ++ List.replicate ((120 - (msg.length + 1) % 64) % 64) 0 ++
    be8 (8 * msg.length)

/-- Group bytes into big-endian 32-bit words. -/
def bytesToWords : List Nat → List Nat
  | a :: b :: c :: d :: rest => (((a * 256 + b) * 256 + c) * 256 + d) :: bytesToWords rest
  | _ => []

/-- Extend a 16-word SHA-1 block by `n` schedule words. -/
def sha1_extend : Nat → List Nat → List Nat
  | 0, w => w
  | n + 1, w =>
    let i := w.length
    sha1_extend n (w ++ [rotl32 1 (((w.getD (i - 3) 0 ^^^ w.getD (i - 8) 0) ^^^
      w.getD (i - 14) 0) ^^^ w.getD (i - 16) 0)])

/-- The SHA-1 round function for round `t`. -/
def sha1_f (t b c d : Nat) : Nat :=
  if t < 20 then (b &&& c) ||| ((b ^^^ 0xFFFFFFFF) &&& d)
  else if t < 40 then (b ^^^ c) ^^^ d
  else if t < 60 then ((b &&& c) ||| (b &&& d)) ||| (c &&& d)
  else (b ^^^ c) ^^^ d

/-- The SHA-1 round constant for round `t`. -/
def sha1_k (t : Nat) : Nat :=
  if t < 20 then 0x5A827999
  else if t < 40 then 0x6ED9EBA1
  else if t < 60 then 0x8F1BBCDC
  else 0xCA62C1D6

/-- Run the SHA-1 rounds over the word schedule `ws` starting at round
`t`, threading the working state `(a, b, c, d, e)`. -/
def sha1_rounds (t : Nat) (ws : List Nat) (st : Nat × Nat × Nat × Nat × Nat) :
    Nat × Nat × Nat × Nat × Nat :=
  match ws with
  | [] => st
  | w :: rest =>
    match st with
    | (a, b, c, d, e) =>
      sha1_rounds (t + 1) rest
        ((rotl32 5 a + sha1_f t b c d + e + sha1_k t + w) % 2 ^ 32,
         a, rotl32 30 b, c, d)

/-- Compress one 16-word block into the running SHA-1 state. -/
def sha1_block (block : List Nat) (h : Nat × Nat × Nat × Nat × Nat) :
    Nat × Nat × Nat × Nat × Nat :=
  match h with
  | (h0, h1, h2, h3, h4) =>
    match sha1_rounds 0 (sha1_extend 64 block) (h0, h1, h2, h3, h4) with
    | (a, b, c, d, e) =>
      ((h0 + a) % 2 ^ 32, (h1 + b) % 2 ^ 32, (h2 + c) % 2 ^ 32,
       (h3 + d) % 2 ^ 32, (h4 + e) % 2 ^ 32)

/-- Fold all 16-word blocks of the padded message into the state.  The
first argument is recursion fuel, always called with at least the number
of blocks. -/
def sha1_blocks : Nat → List Nat → (Nat × Nat × Nat × Nat × Nat) →
    Nat × Nat × Nat × Nat × Nat
  | 0, _, h => h
  | n + 1, ws, h =>
    match ws with
    | [] => h
    | _ => sha1_blocks n (ws.drop 16) (sha1_block (ws.take 16) h)

/-- Modelled from the spec: the digest primitive lives in the external
`crypto` crate, not in this repository.  This is the standard SHA-1
function: 20 digest bytes from a byte message.  The source feeds the
cipher incrementally (raw runs between escaped characters, then each
replacement entity); the bytes fed, in order, are exactly the `msg`
passed here. -/
def sha1 (msg : List Nat) : List Nat :=
  let ws := bytesToWords (sha1_pad msg)
  match sha1_blocks (ws.length + 1) ws
    (0x67452301, 0xEFCDAB89, 0x98BADCFE, 0x10325476, 0xC3D2E1F0) with
  | (h0, h1, h2, h3, h4) =>
    [h0, h1, h2, h3, h4].flatMap fun h =>
      [h / 2 ^ 24 % 256, h / 2 ^ 16 % 256, h / 2 ^ 8 % 256, h % 256]

/-! ## Radix-64 alphabets (`hash/enc_dec.rs`)

Modelled from the spec: the module `hash/enc_dec.rs` holding the
per-character encoder/decoder tables is absent from the sources at hand.
The spec fixes the character sets (legacy `crypt` alphabet for the
10-character format, a base64-like alphabet for the 12/15-character
formats, a half-width-katakana alphabet for the katakana format, and a
collapsed-resolution last-character alphabet for the 10-character
format), and the katakana *decoding* tables do appear in
`hash/mod.rs`.  The exact orderings below are fixed by the crate's own
doc examples and test vectors.  Decoding maps a byte back to its 6-bit
index, or to the out-of-range sentinel `0x40` for a byte outside the
alphabet. -/

/-- Decoding table for the third byte of UTF-8 sequences `EF BD xx`,
from `ScKatakanaHash::decode` in `hash/mod.rs` (`0x40` = invalid). -/
def SC_KATAKANA_DECODING_EFBD : List Nat := [
  64, 64, 64, 64, 64, 64, 64, 64, 64, 64, 64, 64, 64, 64, 64, 64,
  64, 64, 64, 64, 64, 64, 64, 64, 64, 64, 64, 64, 64, 64, 64, 64,
  64, 64, 64, 64, 64, 64, 64, 64, 64, 64, 64, 64, 64, 64, 64, 64,
  64, 64, 64, 64, 64, 64, 64, 64, 64, 64, 64, 64, 64, 64, 64, 64,
  64, 64, 64, 64, 64, 64, 64, 64, 64, 64, 64, 64, 64, 64, 64, 64,
  64, 64, 64, 64, 64, 64, 64, 64, 64, 64, 64, 64, 64, 64, 64, 64,
  64, 64, 64, 64, 64, 64, 64, 64, 64, 64, 64, 64, 64, 64, 64, 64,
  64, 64, 64, 64, 64, 64, 64, 64, 64, 64, 64, 64, 64, 64, 64, 64,
  64, 64, 64, 64, 64, 64, 64, 64, 64, 64, 64, 64, 64, 64, 64, 64,
  64, 64, 64, 64, 64, 64, 64, 64, 64, 64, 64, 64, 64, 64, 64, 64,
  64, 52, 53, 54, 55, 56, 57, 58, 59, 60, 61, 0, 1, 2, 3, 4,
  5, 6, 7, 8, 9, 10, 11, 12, 13, 14, 15, 16, 17, 18, 19, 20,
  64, 64, 64, 64, 64, 64, 64, 64, 64, 64, 64, 64, 64, 64, 64, 64,
  64, 64, 64, 64, 64, 64, 64, 64, 64, 64, 64, 64, 64, 64, 64, 64,
  64, 64, 64, 64, 64, 64, 64, 64, 64, 64, 64, 64, 64, 64, 64, 64,
  64, 64, 64, 64, 64, 64, 64, 64, 64, 64, 64, 64, 64, 64, 64, 64
]

/-- Decoding table for the third byte of UTF-8 sequences `EF BE xx`,
from `ScKatakanaHash::decode` in `hash/mod.rs` (`0x40` = invalid). -/
def SC_KATAKANA_DECODING_EFBE : List Nat := [
  64, 64, 64, 64, 64, 64, 64, 64, 64, 64, 64, 64, 64, 64, 64, 64,
  64, 64, 64, 64, 64, 64, 64, 64, 64, 64, 64, 64, 64, 64, 64, 64,
  64, 64, 64, 64, 64, 64, 64, 64, 64, 64, 64, 64, 64, 64, 64, 64,
  64, 64, 64, 64, 64, 64, 64, 64, 64, 64, 64, 64, 64, 64, 64, 64,
  64, 64, 64, 64, 64, 64, 64, 64, 64, 64, 64, 64, 64, 64, 64, 64,
  64, 64, 64, 64, 64, 64, 64, 64, 64, 64, 64, 64, 64, 64, 64, 64,
  64, 64, 64, 64, 64, 64, 64, 64, 64, 64, 64, 64, 64, 64, 64, 64,
  64, 64, 64, 64, 64, 64, 64, 64, 64, 64, 64, 64, 64, 64, 64, 64,
  21, 22, 23, 24, 25, 26, 27, 28, 29, 30, 31, 32, 33, 34, 35, 36,
  37, 38, 39, 40, 41, 42, 43, 44, 45, 46, 47, 48, 49, 50, 51, 62,
  64, 64, 64, 64, 64, 64, 64, 64, 64, 64, 64, 64, 64, 64, 64, 64,
  64, 64, 64, 64, 64, 64, 64, 64, 64, 64, 64, 64, 64, 64, 64, 64,
  64, 64, 64, 64, 64, 64, 64, 64, 64, 64, 64, 64, 64, 64, 64, 64,
  64, 64, 64, 64, 64, 64, 64, 64, 64, 64, 64, 64, 64, 64, 64, 64,
  64, 64, 64, 64, 64, 64, 64, 64, 64, 64, 64, 64, 64, 64, 64, 64,
  64, 64, 64, 64, 64, 64, 64, 64, 64, 64, 64, 64, 64, 64, 64, 64
]

/-- Modelled from the spec: the legacy `crypt(3)` alphabet
`./0-9A-Za-z`, used by the 10-character format (`enc_dec::Crypt`). -/
def CRYPT_ALPHABET : List Nat :=
  [46, 47] ++ (List.range 10).map (48 + ·) ++ (List.range 26).map (65 + ·) ++
    (List.range 26).map (97 + ·)

/-- Modelled from the spec: `enc_dec::Crypt::encode`. -/
def Crypt.encode (i : Nat) : Nat := CRYPT_ALPHABET.getD i 0

/-- Modelled from the spec: `enc_dec::Crypt::decode`; `0x40` signals an
invalid character. -/
def Crypt.decode (c : Nat) : Nat := CRYPT_ALPHABET.indexOf c

/-- Modelled from the spec: the 16 characters a 10-character tripcode
can end with — the `crypt` alphabet at indices `0, 4, …, 60`, since the
last character carries only the top 4 of its 6 bits
(`enc_dec::CryptLastChar`). -/
def CRYPT_LAST_ALPHABET : List Nat :=
  (List.range 16).map fun i => CRYPT_ALPHABET.getD (4 * i) 0

/-- Modelled from the spec: `enc_dec::CryptLastChar::decode` — the full
6-bit index (a multiple of 4) of a valid final character, `0x40`
otherwise. -/
def CryptLastChar.decode (c : Nat) : Nat := 4 * CRYPT_LAST_ALPHABET.indexOf c

/-- Modelled from the spec: the base64-like alphabet of the 12-character
format (`enc_dec::Base64`), fixed by the crate's test vectors
(standard base64: `A-Za-z0-9+/`). -/
def BASE64_ALPHABET : List Nat :=
  (List.range 26).map (65 + ·) ++ (List.range 26).map (97 + ·) ++
    (List.range 10).map (48 + ·) ++ [43, 47]

/-- Modelled from the spec: `enc_dec::Base64::encode`. -/
def Base64.encode (i : Nat) : Nat := BASE64_ALPHABET.getD i 0

/-- Modelled from the spec: `enc_dec::Base64::decode`. -/
def Base64.decode (c : Nat) : Nat := BASE64_ALPHABET.indexOf c

/-- Modelled from the spec: the alphabet of the 15-character format
(`enc_dec::Sc15`), fixed by the crate's test vectors (base64 with `+`
replaced by `.` and `/` by `!`). -/
def SC15_ALPHABET : List Nat :=
  (List.range 26).map (65 + ·) ++ (List.range 26).map (97 + ·) ++
    (List.range 10).map (48 + ·) ++ [46, 33]

/-- Modelled from the spec: `enc_dec::Sc15::encode`. -/
def Sc15Char.encode (i : Nat) : Nat := SC15_ALPHABET.getD i 0

/-- Modelled from the spec: `enc_dec::Sc15::decode`. -/
def Sc15Char.decode (c : Nat) : Nat := SC15_ALPHABET.indexOf c

/-- Modelled from the spec: `enc_dec::ScKatakana::encode` — the UTF-8
bytes of the half-width katakana (or `!`) for a 6-bit group.  This is
the inverse of the katakana decoding tables present in `hash/mod.rs`. -/
def ScKatakana.encode (i : Nat) : List Nat :=
  if i ≤ 0x14 then [0xEF, 0xBD, 0xAB + i]
  else if i ≤ 0x33 then [0xEF, 0xBE, 0x80 + (i - 0x15)]
  else if i ≤ 0x3D then [0xEF, 0xBD, 0xA1 + (i - 0x34)]
  else if i = 0x3E then [0xEF, 0xBE, 0x9F]
  else [0x21]

/-- Modelled from the spec: `enc_dec::ScSjisKatakana::encode` — the
Shift-JIS byte of the half-width katakana (or `!`) for a 6-bit group. -/
def ScSjisKatakana.encode (i : Nat) : Nat :=
  if i ≤ 0x14 then 0xAB + i
  else if i ≤ 0x33 then 0xC0 + (i - 0x15)
  else if i ≤ 0x3D then 0xA1 + (i - 0x34)
  else if i = 0x3E then 0xDF
  else 0x21

/-- Modelled from the spec: `enc_dec::ScSjisKatakana::decode` — the
6-bit group of a Shift-JIS half-width katakana byte (or `!`), `0x40`
otherwise. -/
def ScSjisKatakana.decode (c : Nat) : Nat :=
  if c = 0x21 then 0x3F
  else if 0xA1 ≤ c ∧ c ≤ 0xAA then 0x34 + (c - 0xA1)
  else if 0xAB ≤ c ∧ c ≤ 0xBF then c - 0xAB
  else if 0xC0 ≤ c ∧ c ≤ 0xDE then 0x15 + (c - 0xC0)
  else if c = 0xDF then 0x3E
  else 0x40

/-! ## Hash value types (`hash/mod.rs`) -/

/-- `FourchanHash(pub u64)`: 58-bit hash of a 10-character tripcode,
top-aligned in a 64-bit word. -/
structure FourchanHash where
  val : Nat
deriving DecidableEq, Repr

/-- `pub use FourchanHash as Mona10Hash`. -/
abbrev Mona10Hash := FourchanHash

/-- `Mona12Hash(pub u64, pub u8)`: 72-bit hash of a 12-character
tripcode. -/
structure Mona12Hash where
  w : Nat
  b : Nat
deriving DecidableEq, Repr

/-- `Sc15Hash(pub u64, pub u32)`: 90-bit hash of a 15-character
tripcode (top 60 bits of `w`, top 30 bits of `v`). -/
structure Sc15Hash where
  w : Nat
  v : Nat
deriving DecidableEq, Repr

/-- `ScKatakanaHash(pub Sc15Hash)`: the same 90 bits, rendered in the
katakana alphabet. -/
structure ScKatakanaHash where
  h : Sc15Hash
deriving DecidableEq, Repr

/-- `enum MonaHash`: tagged hash of a 2channel tripcode. -/
inductive MonaHash where
  | ten (h : Mona10Hash)
  | twelve (h : Mona12Hash)
  | error
deriving DecidableEq, Repr

/-- `enum ScHash`: tagged hash of a 2ch.sc tripcode. -/
inductive ScHash where
  | ten (h : Mona10Hash)
  | twelve (h : Mona12Hash)
  | fifteen (h : Sc15Hash)
  | katakana (h : ScKatakanaHash)
  | error
deriving DecidableEq, Repr

/-! ## Encoding (`hash/mod.rs`)

Each encoder loop repeatedly emits the top 6 bits of a word and shifts
it left by 6 (wrapping at the word width); `append`, `write` and
`encode` run the same loop into different destinations, so they are
modelled by one function returning the produced bytes, with `append`
prepending the destination. -/

/-- The `n` 6-bit groups emitted by the `u64` encoder loops:
`(self.0 >> 58)` then `self.0 <<= 6`. -/
def groups58 : Nat → Nat → List Nat
  | 0, _ => []
  | n + 1, w => w / 2 ^ 58 :: groups58 n (w * 64 % 2 ^ 64)

/-- The `n` 6-bit groups emitted by the `u32` encoder loops:
`(self.1 >> 26)` then `self.1 <<= 6`. -/
def groups26 : Nat → Nat → List Nat
  | 0, _ => []
  | n + 1, v => v / 2 ^ 26 :: groups26 n (v * 64 % 2 ^ 32)

/-- `try_dec!` from `hash/mod.rs`: accept a decoded 6-bit value, fail on
the `0x40` sentinel. -/
def tryDec (d : Nat) : Option Nat := if d ≤ 0x3F then some d else none

/-- `FourchanHash`'s encoder (`append_ascii` / `write_ascii`): ten
`crypt`-alphabet characters from the top 60 bits. -/
def FourchanHash.encode (h : FourchanHash) : List Nat :=
  (groups58 10 h.val).map Crypt.encode

/-- The `FourchanHash` decoding loop: `ret |= dec; ret <<= 6` per
character, failing on the `0x40` sentinel. -/
def decFoldSA (dec : Nat → Nat) : List Nat → Nat → Option Nat
  | [], acc => some acc
  | c :: rest, acc =>
    match tryDec (dec c) with
    | some d => decFoldSA dec rest ((acc ||| d) * 64)
    | none => none

/-- The `Mona12Hash`/`Sc15Hash` decoding loop: `ret <<= 6; ret |= dec`
per character, failing on the `0x40` sentinel. -/
def decFoldSB (dec : Nat → Nat) : List Nat → Nat → Option Nat
  | [], acc => some acc
  | c :: rest, acc =>
    match tryDec (dec c) with
    | some d => decFoldSB dec rest (acc * 64 ||| d)
    | none => none

/-- `FourchanHash::decode_from_ascii`: nine `crypt` characters, one
last-character, re-packed top-aligned (`ret <<= 4` at the end). -/
def FourchanHash.decode (t : List Nat) : Option FourchanHash :=
  if t.length ≠ 10 then none else do
    let r ← decFoldSA Crypt.decode (t.take 9) 0
    let d9 ← tryDec (CryptLastChar.decode (t.getD 9 0))
    some ⟨(r ||| d9) * 16⟩

/-- `Mona12Hash`'s encoder (`encode_mona_12_main!`): ten base64
characters from the `u64`, then two characters straddling the `u64`/`u8`
boundary. -/
def Mona12Hash.encode (h : Mona12Hash) : List Nat :=
  (groups58 10 h.w).map Base64.encode ++
    [Base64.encode ((h.w * 2 ^ 60 % 2 ^ 64 / 2 ^ 58) ||| h.b / 64),
     Base64.encode (h.b % 64)]   -- `hash.1 & 0b111111`

/-- `Mona12Hash::decode_from_ascii`. -/
def Mona12Hash.decode (t : List Nat) : Option Mona12Hash :=
  if t.length ≠ 12 then none else do
    let r ← decFoldSB Base64.decode (t.take 10) 0
    let d10 ← tryDec (Base64.decode (t.getD 10 0))
    let d11 ← tryDec (Base64.decode (t.getD 11 0))
    some ⟨r * 16 ||| d10 / 4, (d10 * 64 ||| d11) % 256⟩

/-- `Sc15Hash`'s and `ScKatakanaHash`'s one-byte-per-character decoder
(`decode_sc_sha1_internal`), generic in the character table. -/
def decode_sc_sha1 (dec : Nat → Nat) (t : List Nat) : Option Sc15Hash :=
  if t.length ≠ 15 then none else do
    let w ← decFoldSB dec (t.take 10) 0
    let v ← decFoldSB dec (t.drop 10) 0
    some ⟨w * 16, v * 4⟩

/-- `Sc15Hash`'s encoder (`encode_sc_sha1_main!` with `enc_dec::Sc15`). -/
def Sc15Hash.encode (h : Sc15Hash) : List Nat :=
  (groups58 10 h.w).map Sc15Char.encode ++ (groups26 5 h.v).map Sc15Char.encode

/-- `Sc15Hash::decode_from_ascii`. -/
def Sc15Hash.decode (t : List Nat) : Option Sc15Hash :=
  decode_sc_sha1 Sc15Char.decode t

/-- `ScKatakanaHash`'s UTF-8 encoder (`append` / `write`): each 6-bit
group becomes a 3-byte katakana sequence or the 1-byte `!`. -/
def ScKatakanaHash.encode (h : ScKatakanaHash) : List Nat :=
  (groups58 10 h.h.w).flatMap ScKatakana.encode ++
    (groups26 5 h.h.v).flatMap ScKatakana.encode

/-- One step of `try_dec_kana!` from `ScKatakanaHash::decode`: read one
katakana character (trie `EF BD _` / `EF BE _`) or `!` off the front of
the byte stream. -/
def kana_dec1 : List Nat → Option (Nat × List Nat)
  | 0xEF :: 0xBD :: b :: rest =>
    (tryDec (SC_KATAKANA_DECODING_EFBD.getD b 0x40)).map fun d => (d, rest)
  | 0xEF :: 0xBE :: b :: rest =>
    (tryDec (SC_KATAKANA_DECODING_EFBE.getD b 0x40)).map fun d => (d, rest)
  | 0x21 :: rest => some (0x3F, rest)
  | _ => none

/-- Accumulate `n` katakana characters into a 6-bit-per-character word,
as the two decoding loops of `ScKatakanaHash::decode` do. -/
def kana_dec_groups : Nat → Nat → List Nat → Option (Nat × List Nat)
  | 0, acc, l => some (acc, l)
  | n + 1, acc, l =>
    match kana_dec1 l with
    | some (d, rest) => kana_dec_groups n (acc * 64 ||| d) rest
    | none => none

/-- `ScKatakanaHash::decode`: ten then five katakana characters, and the
input must end exactly there. -/
def ScKatakanaHash.decode (t : List Nat) : Option ScKatakanaHash :=
  match kana_dec_groups 10 0 t with
  | some (w, rest) =>
    match kana_dec_groups 5 0 rest with
    | some (v, rest2) => if rest2 = [] then some ⟨⟨w * 16, v * 4⟩⟩ else none
    | none => none
  | none => none

/-- `ScKatakanaHash`'s Shift-JIS encoder (`append_sjis` / `write_sjis`):
one byte per 6-bit group. -/
def ScKatakanaHash.encode_sjis (h : ScKatakanaHash) : List Nat :=
  (groups58 10 h.h.w).map ScSjisKatakana.encode ++
    (groups26 5 h.h.v).map ScSjisKatakana.encode

/-- `ScKatakanaHash::decode_from_sjis`. -/
def ScKatakanaHash.decode_from_sjis (t : List Nat) : Option ScKatakanaHash :=
  (decode_sc_sha1 ScSjisKatakana.decode t).map ScKatakanaHash.mk

/-- The bytes of the undefined-format tripcode `"???"`. -/
def errorTripcode : List Nat := [63, 63, 63]

/-- `MonaHash`'s encoder: the arms of `append_ascii` / `write_ascii` /
`encode_to_ascii` for `impl AsciiTripcodeHash for MonaHash`. -/
def MonaHash.encode : MonaHash → List Nat
  | .ten h => h.encode
  | .twelve h => h.encode
  | .error => errorTripcode

/-- `MonaHash::decode_from_ascii`: dispatch on the text length. -/
def MonaHash.decode (t : List Nat) : Option MonaHash :=
  if t.length = 10 then (FourchanHash.decode t).map .ten
  else if t.length = 12 then (Mona12Hash.decode t).map .twelve
  else if t.length = 3 then if t = errorTripcode then some .error else none
  else none

/-- `ScHash`'s UTF-8 encoder: the arms of `append` / `write` / `encode`
for `impl TripcodeHash for ScHash`. -/
def ScHash.encode : ScHash → List Nat
  | .ten h => h.encode
  | .twelve h => h.encode
  | .fifteen h => h.encode
  | .katakana h => h.encode
  | .error => errorTripcode

/-- `ScHash::decode`: dispatch on the text length; any length of at
least 17 is tried as a katakana tripcode. -/
def ScHash.decode (t : List Nat) : Option ScHash :=
  if t.length = 10 then (FourchanHash.decode t).map .ten
  else if t.length = 12 then (Mona12Hash.decode t).map .twelve
  else if t.length = 15 then (Sc15Hash.decode t).map .fifteen
  else if t.length = 3 then if t = errorTripcode then some .error else none
  else if 17 ≤ t.length then (ScKatakanaHash.decode t).map .katakana
  else none

/-- `ScHash`'s Shift-JIS encoder: the arms of `append_sjis` /
`write_sjis` / `encode_to_sjis`. -/
def ScHash.encode_sjis : ScHash → List Nat
  | .ten h => h.encode
  | .twelve h => h.encode
  | .fifteen h => h.encode
  | .katakana h => h.encode_sjis
  | .error => errorTripcode

/-- `ScHash::decode_from_sjis`: at length 15 a 15-character decode is
tried first, then a Shift-JIS katakana decode. -/
def ScHash.decode_from_sjis (t : List Nat) : Option ScHash :=
  if t.length = 10 then (FourchanHash.decode t).map .ten
  else if t.length = 12 then (Mona12Hash.decode t).map .twelve
  else if t.length = 15 then
    ((Sc15Hash.decode t).map ScHash.fifteen).orElse fun _ =>
      (ScKatakanaHash.decode_from_sjis t).map .katakana
  else if t.length = 3 then if t = errorTripcode then some .error else none
  else none

/-! ## Generators (`lib.rs`) -/

/-- The mutable state of the `des_cipher_escaped!` loop: the packed key,
the two salt bytes and the index `j` into the escaped password. -/
structure DesState where
  key : Nat
  s1 : Nat
  s2 : Nat
  j : Nat
deriving DecidableEq, Repr

/-- The loop of `des_cipher_escaped!` from `lib.rs`: for each password
byte, or its whole replacement entity into the key window at escaped
position `j` (`key |= pack_u64_be(escaped) >> 8*j`), pick up salt bytes
from escaped positions 1 and 2, and break once `j >= 8`. -/
def desLoop (esc : Nat → Option (List Nat)) : List Nat → DesState → DesState
  | [], st => st
  | c :: rest, st =>
    match esc c with
    | some e =>
      let key := st.key ||| pack_u64_be e / 2 ^ (8 * st.j)
      let s1 := if st.j = 0 then e.getD 1 0 else if st.j = 1 then e.getD 0 0 else st.s1
      let s2 := if st.j = 0 then e.getD 2 0 else if st.j = 1 then e.getD 1 0
                else if st.j = 2 then e.getD 0 0 else st.s2
      let j := st.j + e.length
      if 8 ≤ j then ⟨key, s1, s2, j⟩ else desLoop esc rest ⟨key, s1, s2, j⟩
    | none =>
      let key := st.key ||| c * 2 ^ (8 * (7 - st.j))
      let s1 := if st.j = 1 then c else st.s1
      let s2 := if st.j = 2 then c else st.s2
      let j := st.j + 1
      if 8 ≤ j then ⟨key, s1, s2, j⟩ else desLoop esc rest ⟨key, s1, s2, j⟩

/-- The key accumulated by `des_cipher_escaped!` before the shift-mask
step (initial state: zero key, default salts `('H', '.')`, `j = 0`). -/
def des_escaped_key (esc : Nat → Option (List Nat)) (p : List Nat) : Nat :=
  (desLoop esc p ⟨0, 72, 46, 0⟩).key

/-- The salt byte pair `des_cipher_escaped!` feeds to `decode_salt`,
including the post-loop fixup `if j == 2 { salt2 = b'H' }`. -/
def des_escaped_salt (esc : Nat → Option (List Nat)) (p : List Nat) : Nat × Nat :=
  let st := desLoop esc p ⟨0, 72, 46, 0⟩
  (st.s1, if st.j = 2 then 72 else st.s2)

/-- `des_cipher_escaped!` from `lib.rs`: escape the password into an
8-byte key window, derive the salt, and run the zero-block cipher. -/
def des_cipher_escaped (esc : Nat → Option (List Nat)) (p : List Nat) : Nat :=
  zero_cipher_58 ((des_escaped_key esc p * 2 % 2 ^ 64) &&& 0xFEFEFEFEFEFEFEFE)
    (decode_salt (des_escaped_salt esc p).1 (des_escaped_salt esc p).2)

/-- `impl TripcodeGenerator for Fourchan`. -/
def Fourchan.hash (p : List Nat) : FourchanHash :=
  ⟨des_cipher_escaped fourchan_escape p⟩

/-- `Des::hash`: custom-salt DES tripcode (`crypt(3)` with the lenient
salt table). -/
def Des.hash (p : List Nat) (salt1 salt2 : Nat) : FourchanHash :=
  ⟨zero_cipher_58 (secret_to_key p) (decode_salt salt1 salt2)⟩

/-- The `(salt1, salt2)` match of
`impl TripcodeGenerator for FourchanNonescaping`: salt from raw bytes 1
and 2, with fallbacks `('H', '.')` below two bytes and `'H'` for the
second byte at exactly two bytes. -/
def FourchanNonescaping.salt (p : List Nat) : Nat × Nat :=
  if p.length = 0 ∨ p.length = 1 then (72, 46)
  else if p.length = 2 then (p.getD 1 0, 72)
  else (p.getD 1 0, p.getD 2 0)

/-- `impl TripcodeGenerator for FourchanNonescaping`: the salt match
above, then `Des::hash`. -/
def FourchanNonescaping.hash (p : List Nat) : FourchanHash :=
  Des.hash p (FourchanNonescaping.salt p).1 (FourchanNonescaping.salt p).2

/-- `pub use FourchanNonescaping as Mona10Nonescaping`. -/
def Mona10Nonescaping.hash (p : List Nat) : Mona10Hash := FourchanNonescaping.hash p

/-- `impl TripcodeGenerator for Mona10`. -/
def Mona10.hash (p : List Nat) : Mona10Hash :=
  ⟨des_cipher_escaped mona_escape p⟩

/-- The key-decoding loop of `MonaRaw::try_hash`: produce the packed
secret bytes from position `i` on (`fuel = 8 - i` steps remain).  Each
step hex-decodes the byte pair at positions `2i+1, 2i+2`; a null byte
stops early, leaving the rest of the pre-zeroed buffer at zero, provided
every remaining byte up to position 17 is still a hex digit. -/
def MonaRaw.packedBytes (p : List Nat) : Nat → Nat → Option (List Nat)
  | 0, _ => some []
  | fuel + 1, i =>
    let d1 := p.getD (2 * i + 1) 0
    let d0 := p.getD (2 * i + 2) 0
    if hex_to_i d1 ≤ 0xF then
      if hex_to_i d0 ≤ 0xF then
        let byte := hex_to_i d1 * 16 ||| hex_to_i d0
        if byte = 0 then
          if ((p.take 17).drop (2 * i + 1)).all (fun c => hex_to_i c ≠ 0x10) then
            some (List.replicate (fuel + 1) 0)
          else none
        else (MonaRaw.packedBytes p fuel (i + 1)).map (byte :: ·)
      else none
    else none

/-- `impl TripcodeGeneratorFailable for MonaRaw` (`try_hash`): strict
salt from the trailing bytes, hex-decoded 8-byte secret, zero-block
cipher. -/
def MonaRaw.try_hash (p : List Nat) : Option Mona10Hash :=
  let salt? : Option Nat :=
    if p.length = 17 then some 0
    else if p.length = 18 then decode_salt_strict (p.getD 17 0) 46
    else if p.length = 19 then decode_salt_strict (p.getD 17 0) (p.getD 18 0)
    else none
  match salt? with
  | none => none
  | some salt =>
    match MonaRaw.packedBytes p 8 0 with
    | none => none
    | some packed => some ⟨zero_cipher_58 (secret_to_key packed) salt⟩

/-- `sha1_internal` from `lib.rs`: digest the (optionally escaped)
password with SHA-1.  With escaping on, the source feeds the raw runs
between escaped characters and each replacement entity; the fed bytes
are exactly the escaped stream. -/
def sha1_internal (p : List Nat) (escape : Bool) : List Nat :=
  sha1 (if escape then escape_stream mona_escape p else p)

/-- `impl TripcodeGenerator for Mona12`: first 8 digest bytes as a
big-endian `u64`, plus digest byte 8. -/
def Mona12.hash (p : List Nat) : Mona12Hash :=
  let d := sha1_internal p true
  ⟨pack_u64_be (d.take 8), d.getD 8 0⟩

/-- `impl TripcodeGenerator for Mona12Nonescaping`. -/
def Mona12Nonescaping.hash (p : List Nat) : Mona12Hash :=
  let d := sha1_internal p false
  ⟨pack_u64_be (d.take 8), d.getD 8 0⟩

/-- `mona_internal` from `lib.rs`: the 2channel format dispatcher,
parameterized by the 10- and 12-character sub-generators and by whether
the length is measured on the escaped stream. -/
def mona_internal (hashTen : List Nat → Mona10Hash)
    (hashTwelve : List Nat → Mona12Hash) (p : List Nat) (escape : Bool) : MonaHash :=
  let len := if escape then
      (p.map fun c => ((mona_escape c).map List.length).getD 1).sum
    else p.length
  if 12 ≤ len then
    let sign := p.getD 0 0
    if sign = 35 then          -- '#'
      match MonaRaw.try_hash p with
      | some h => .ten h
      | none => .error
    else if sign = 36 then .error   -- '$'
    else .twelve (hashTwelve p)
  else .ten (hashTen p)

/-- `impl TripcodeGenerator for Mona`. -/
def Mona.hash (p : List Nat) : MonaHash :=
  mona_internal Mona10.hash Mona12.hash p true

/-- `impl TripcodeGenerator for MonaNonescaping`. -/
def MonaNonescaping.hash (p : List Nat) : MonaHash :=
  mona_internal Mona10Nonescaping.hash Mona12Nonescaping.hash p false

/-- `Mona::generate`: `encode(hash(password))`. -/
def Mona.generate (p : List Nat) : List Nat := (Mona.hash p).encode

/-- `impl TripcodeGenerator for Sc15`: digest bits 19–108, split as a
60-bit-significant `u64` and a 30-bit-significant `u32`. -/
def Sc15.hash (p : List Nat) : Sc15Hash :=
  let d := sha1_internal p false
  ⟨(pack_u64_be ((d.drop 2).take 8) * 4 % 2 ^ 64) &&& 0xFFFFFFFFFFFFFFF0,
   (pack_u64_be ((d.drop 6).take 8) / 4) &&& 0xFFFFFFFC⟩

/-- `impl TripcodeGenerator for ScKatakana`. -/
def ScKatakana.hash (p : List Nat) : ScKatakanaHash := ⟨Sc15.hash p⟩

/-- `sc_internal` from `lib.rs`: the 2ch.sc format dispatcher,
parameterized by the katakana test used for `$`-passwords. -/
def sc_internal (katakana : List Nat → Bool) (p : List Nat) : ScHash :=
  if 12 ≤ p.length then
    let sign := p.getD 0 0
    if sign = 35 then          -- '#'
      match MonaRaw.try_hash p with
      | some h => .ten h
      | none => .error
    else if sign = 36 then     -- '$'
      let h := Sc15.hash p
      if katakana p then .katakana ⟨h⟩ else .fifteen h
    else .twelve (Mona12Nonescaping.hash p)
  else .ten (FourchanNonescaping.hash p)

/-- `impl TripcodeGenerator for Sc`. -/
def Sc.hash (p : List Nat) : ScHash :=
  sc_internal sc_password_starts_with_katakana p

/-- `impl TripcodeGenerator for ScSjis`: the katakana test is a single
Shift-JIS byte-range check on the byte after `'$'`. -/
def ScSjis.hash (p : List Nat) : ScHash :=
  sc_internal (fun s => decide (0xA1 ≤ s.getD 1 0 ∧ s.getD 1 0 ≤ 0xDF)) p

/-! ## Shared arithmetic lemmas -/

/-- Bitwise or of disjoint parts is addition: a low part smaller than
`2 ^ k` or-ed below a multiple of `2 ^ k`. -/
theorem lor_two_pow_mul_add (k : Nat) :
    ∀ a b : Nat, b < 2 ^ k → (2 ^ k * a) ||| b = 2 ^ k * a + b := by
  induction k with
  | zero =>
    intro a b hb
    interval_cases b
    simp
  | succ k ih =>
    intro a b hb
    have h1 : (2 : Nat) ^ (k + 1) * a = Nat.bit false (2 ^ k * a) := by
      simp [Nat.bit]
      ring
    have h2 : Nat.bit b.bodd b.div2 = b := Nat.bit_decomp b
    have h3 : b.div2 < 2 ^ k := by
      rw [Nat.div2_val]
      omega
    rw [h1, ← h2, Nat.lor_bit, Bool.false_or, ih _ _ h3]
    have h4 := Nat.bodd_add_div2 b
    cases hc : b.bodd <;> simp [Nat.bit, hc] at h4 ⊢ <;> omega

/-- `lor_two_pow_mul_add` stated through a mod-vanishing hypothesis. -/
theorem lor_eq_add_of_mod (k a b : Nat) (ha : a % 2 ^ k = 0) (hb : b < 2 ^ k) :
    a ||| b = a + b := by
  obtain ⟨m, hm⟩ := Nat.dvd_of_mod_eq_zero ha
  subst hm
  exact lor_two_pow_mul_add k m b hb

/-! ## Codec lemmas: 6-bit group folds -/

set_option maxRecDepth 8192

theorem groups58_length : ∀ n w, (groups58 n w).length = n := by
  intro n
  induction n with
  | zero => intro w; rfl
  | succ n ih => intro w; simp [groups58, ih]

theorem groups26_length : ∀ n v, (groups26 n v).length = n := by
  intro n
  induction n with
  | zero => intro w; rfl
  | succ n ih => intro w; simp [groups26, ih]

theorem groups58_lt : ∀ n w, w < 2 ^ 64 → ∀ g ∈ groups58 n w, g < 64 := by
  intro n
  induction n with
  | zero => intro w _ g hg; simp [groups58] at hg
  | succ n ih =>
    intro w hw g hg
    simp only [groups58, List.mem_cons] at hg
    rcases hg with h | h
    · subst h; omega
    · exact ih _ (Nat.mod_lt _ (by norm_num)) g h

theorem groups26_lt : ∀ n v, v < 2 ^ 32 → ∀ g ∈ groups26 n v, g < 64 := by
  intro n
  induction n with
  | zero => intro w _ g hg; simp [groups26] at hg
  | succ n ih =>
    intro v hv g hg
    simp only [groups26, List.mem_cons] at hg
    rcases hg with h | h
    · subst h; omega
    · exact ih _ (Nat.mod_lt _ (by norm_num)) g h

theorem decFoldSB_map (dec enc : Nat → Nat) (gs : List Nat) :
    ∀ acc, (∀ g ∈ gs, dec (enc g) = g ∧ g ≤ 63) →
    decFoldSB dec (gs.map enc) acc = some (gs.foldl (fun a g => a * 64 + g) acc) := by
  induction gs with
  | nil => intro acc _; rfl
  | cons g gs ih =>
    intro acc hg
    have h1 := hg g (by simp)
    simp only [List.map_cons, decFoldSB, h1.1, tryDec, if_pos h1.2]
    rw [lor_eq_add_of_mod 6 _ _ (by omega) (by omega)]
    exact ih _ (fun x hx => hg x (by simp [hx]))

theorem decFoldSA_map (dec enc : Nat → Nat) (gs : List Nat) :
    ∀ acc, acc % 64 = 0 → (∀ g ∈ gs, dec (enc g) = g ∧ g ≤ 63) →
    decFoldSA dec (gs.map enc) acc = some (gs.foldl (fun a g => (a + g) * 64) acc) := by
  induction gs with
  | nil => intro acc _ _; rfl
  | cons g gs ih =>
    intro acc hacc hg
    have h1 := hg g (by simp)
    simp only [List.map_cons, decFoldSA, h1.1, tryDec, if_pos h1.2]
    rw [lor_eq_add_of_mod 6 _ _ (by omega) (by omega)]
    exact ih _ (by omega) (fun x hx => hg x (by simp [hx]))

theorem div_split_pow (w m k : Nat) (hmk : m ≤ k) :
    w / 2 ^ m = w / 2 ^ k * 2 ^ (k - m) + w % 2 ^ k / 2 ^ m := by
  have h1 : (2 : Nat) ^ k = 2 ^ (k - m) * 2 ^ m := by
    rw [← pow_add]
    congr 1
    omega
  calc w / 2 ^ m
      = (w % 2 ^ k + w / 2 ^ k * 2 ^ k) / 2 ^ m := by rw [Nat.mod_add_div']
    _ = (w % 2 ^ k + w / 2 ^ k * 2 ^ (k - m) * 2 ^ m) / 2 ^ m := by
        rw [h1, ← Nat.mul_assoc]
    _ = w % 2 ^ k / 2 ^ m + w / 2 ^ k * 2 ^ (k - m) := by
        rw [Nat.add_mul_div_right _ _ (by positivity)]
    _ = w / 2 ^ k * 2 ^ (k - m) + w % 2 ^ k / 2 ^ m := by omega

theorem shift64_step (w : Nat) : w * 64 % 2 ^ 64 = w % 2 ^ 58 * 64 := by
  rw [show (2 : Nat) ^ 64 = 2 ^ 58 * 64 by norm_num, Nat.mul_mod_mul_right]

theorem shift32_step (v : Nat) : v * 64 % 2 ^ 32 = v % 2 ^ 26 * 64 := by
  rw [show (2 : Nat) ^ 32 = 2 ^ 26 * 64 by norm_num, Nat.mul_mod_mul_right]

theorem foldSB_groups58 : ∀ n m acc w, 6 * n + m = 64 → w < 2 ^ 64 →
    (groups58 n w).foldl (fun a g => a * 64 + g) acc = acc * 2 ^ (6 * n) + w / 2 ^ m := by
  intro n
  induction n with
  | zero =>
    intro m acc w hm hw
    have hmeq : m = 64 := by omega
    subst hmeq
    simp only [groups58, List.foldl_nil, Nat.mul_zero, pow_zero, Nat.mul_one]
    omega
  | succ n ih =>
    intro m acc w hm hw
    simp only [groups58, List.foldl_cons]
    rw [ih (m + 6) _ _ (by omega) (Nat.mod_lt _ (by norm_num))]
    rw [shift64_step]
    have hdd : w % 2 ^ 58 * 64 / 2 ^ (m + 6) = w % 2 ^ 58 / 2 ^ m := by
      rw [pow_add, show (2 : Nat) ^ 6 = 64 by norm_num, Nat.mul_div_mul_right _ _ (by norm_num)]
    rw [hdd, div_split_pow w m 58 (by omega)]
    have h58 : 58 - m = 6 * n := by omega
    rw [h58, pow_succ, show 6 * (n + 1) = 6 * n + 6 by ring, pow_add]
    ring_nf

theorem foldSB_groups26 : ∀ n m acc v, 6 * n + m = 32 → v < 2 ^ 32 →
    (groups26 n v).foldl (fun a g => a * 64 + g) acc = acc * 2 ^ (6 * n) + v / 2 ^ m := by
  intro n
  induction n with
  | zero =>
    intro m acc v hm hv
    have hmeq : m = 32 := by omega
    subst hmeq
    simp only [groups26, List.foldl_nil, Nat.mul_zero, pow_zero, Nat.mul_one]
    omega
  | succ n ih =>
    intro m acc v hm hv
    simp only [groups26, List.foldl_cons]
    rw [ih (m + 6) _ _ (by omega) (Nat.mod_lt _ (by norm_num))]
    rw [shift32_step]
    have hdd : v % 2 ^ 26 * 64 / 2 ^ (m + 6) = v % 2 ^ 26 / 2 ^ m := by
      rw [pow_add, show (2 : Nat) ^ 6 = 64 by norm_num, Nat.mul_div_mul_right _ _ (by norm_num)]
    rw [hdd, div_split_pow v m 26 (by omega)]
    have h26 : 26 - m = 6 * n := by omega
    rw [h26, pow_succ, show 6 * (n + 1) = 6 * n + 6 by ring, pow_add]
    ring_nf

theorem foldSA_groups58 : ∀ n m acc w, 6 * n + m = 64 → w < 2 ^ 64 →
    (groups58 n w).foldl (fun a g => (a + g) * 64) acc
      = acc * 2 ^ (6 * n) + w / 2 ^ m * 64 := by
  intro n
  induction n with
  | zero =>
    intro m acc w hm hw
    have hmeq : m = 64 := by omega
    subst hmeq
    simp only [groups58, List.foldl_nil, Nat.mul_zero, pow_zero, Nat.mul_one]
    have : w / 2 ^ 64 = 0 := Nat.div_eq_of_lt hw
    omega
  | succ n ih =>
    intro m acc w hm hw
    simp only [groups58, List.foldl_cons]
    rw [ih (m + 6) _ _ (by omega) (Nat.mod_lt _ (by norm_num))]
    rw [shift64_step]
    have hdd : w % 2 ^ 58 * 64 / 2 ^ (m + 6) = w % 2 ^ 58 / 2 ^ m := by
      rw [pow_add, show (2 : Nat) ^ 6 = 64 by norm_num, Nat.mul_div_mul_right _ _ (by norm_num)]
    rw [hdd, div_split_pow w m 58 (by omega)]
    have h58 : 58 - m = 6 * n := by omega
    rw [h58, show 6 * (n + 1) = 6 * n + 6 by ring, pow_add]
    ring_nf


/-! ## Codec lemmas: alphabet inverses and per-type round trips -/
theorem crypt_enc_dec : ∀ i < 64, Crypt.decode (Crypt.encode i) = i := by decide

theorem cryptlast_enc_dec : ∀ i < 64, i % 4 = 0 → CryptLastChar.decode (Crypt.encode i) = i := by
  decide

theorem b64_enc_dec : ∀ i < 64, Base64.decode (Base64.encode i) = i := by decide

theorem sc15_enc_dec : ∀ i < 64, Sc15Char.decode (Sc15Char.encode i) = i := by decide

theorem groups58_append (m n w : Nat) (hw : w < 2 ^ 64) :
    groups58 (m + n) w = groups58 m w ++ groups58 n (w * 2 ^ (6 * m) % 2 ^ 64) := by
  induction m generalizing w with
  | zero =>
    simp only [Nat.zero_add, Nat.mul_zero, pow_zero, Nat.mul_one, groups58,
      List.nil_append, Nat.mod_eq_of_lt hw]
  | succ m ih =>
    have hstep : w * 64 % 2 ^ 64 * 2 ^ (6 * m) % 2 ^ 64 = w * 2 ^ (6 * (m + 1)) % 2 ^ 64 := by
      rw [Nat.mod_mul_mod, show 6 * (m + 1) = 6 + 6 * m by ring, pow_add]
      ring_nf
    rw [show m + 1 + n = (m + n) + 1 by ring]
    simp only [groups58]
    rw [ih _ (Nat.mod_lt _ (by norm_num)), hstep, List.cons_append]

theorem fourchan_roundtrip (h : Nat) (h64 : h < 2 ^ 64) (hpad : h % 64 = 0) :
    FourchanHash.decode (FourchanHash.encode ⟨h⟩) = some ⟨h⟩ := by
  have hsplit : groups58 10 h = groups58 9 h ++ [h * 2 ^ 54 % 2 ^ 64 / 2 ^ 58] := by
    have := groups58_append 9 1 h h64
    simpa [groups58] using this
  set g9 := h * 2 ^ 54 % 2 ^ 64 / 2 ^ 58 with hg9def
  have hg9 : g9 = h % 2 ^ 10 / 2 ^ 4 := by
    rw [hg9def, show (2 : Nat) ^ 64 = 2 ^ 10 * 2 ^ 54 by norm_num, Nat.mul_mod_mul_right,
      show (2 : Nat) ^ 58 = 2 ^ 4 * 2 ^ 54 by norm_num, Nat.mul_div_mul_right _ _ (by norm_num)]
  have hg9lt : g9 < 64 := by
    rw [hg9]
    omega
  have hg9mod : g9 % 4 = 0 := by
    have h10 : h % 2 ^ 10 % 64 = 0 := by omega
    rw [hg9]
    omega
  unfold FourchanHash.encode FourchanHash.decode
  rw [hsplit]
  have hlen9 : ((groups58 9 h).map Crypt.encode).length = 9 := by
    rw [List.length_map, groups58_length]
  have hlen : (((groups58 9 h) ++ [g9]).map Crypt.encode).length = 10 := by
    rw [List.length_map, List.length_append, groups58_length]
    rfl
  rw [if_neg (by simp [groups58_length])]
  rw [List.map_append]
  have hlen9' : (groups58 9 h).length = 9 := groups58_length 9 h
  have htake : (((groups58 9 h).map Crypt.encode) ++ [g9].map Crypt.encode).take 9
      = (groups58 9 h).map Crypt.encode := by
    exact List.take_left' hlen9
  have hgetD : (((groups58 9 h).map Crypt.encode) ++ [g9].map Crypt.encode).getD 9 0
      = Crypt.encode g9 := by
    rw [List.getD_eq_getElem?_getD, List.getElem?_append_right (le_of_eq hlen9), hlen9]
    simp
  rw [htake, hgetD]
  rw [decFoldSA_map _ _ _ _ (by omega) (fun g hg => by
    have hlt := groups58_lt 9 h h64 g hg
    exact ⟨crypt_enc_dec g hlt, by omega⟩)]
  rw [foldSA_groups58 9 10 0 h (by norm_num) h64]
  simp only [Option.bind_eq_bind, Option.some_bind, Nat.zero_mul, Nat.zero_add]
  rw [cryptlast_enc_dec g9 hg9lt hg9mod, tryDec, if_pos (by omega)]
  simp only [Option.some_bind]
  rw [lor_eq_add_of_mod 6 _ _ (by omega) (by omega)]
  congr 2
  rw [hg9]
  omega



theorem mona12_roundtrip (w b : Nat) (hw : w < 2 ^ 64) (hb : b < 256) :
    Mona12Hash.decode (Mona12Hash.encode ⟨w, b⟩) = some ⟨w, b⟩ := by
  have hc10a : w * 2 ^ 60 % 2 ^ 64 / 2 ^ 58 = w % 16 * 4 := by
    rw [show (2 : Nat) ^ 64 = 2 ^ 4 * 2 ^ 60 by norm_num, Nat.mul_mod_mul_right,
      show (2 : Nat) ^ 60 = 4 * 2 ^ 58 by norm_num, ← Nat.mul_assoc,
      Nat.mul_div_cancel _ (by norm_num)]
    rfl
  have hc10 : w * 2 ^ 60 % 2 ^ 64 / 2 ^ 58 ||| b / 64 = w % 16 * 4 + b / 64 := by
    rw [hc10a]
    exact lor_eq_add_of_mod 2 _ _ (by omega) (by omega)
  have hlenA : ((groups58 10 w).map Base64.encode).length = 10 := by
    rw [List.length_map, groups58_length]
  unfold Mona12Hash.encode Mona12Hash.decode
  simp only
  rw [if_neg (by simp [groups58_length])]
  rw [List.take_left' hlenA]
  have hget10 : (((groups58 10 w).map Base64.encode) ++
      [Base64.encode (w * 2 ^ 60 % 2 ^ 64 / 2 ^ 58 ||| b / 64),
       Base64.encode (b % 64)]).getD 10 0
      = Base64.encode (w * 2 ^ 60 % 2 ^ 64 / 2 ^ 58 ||| b / 64) := by
    rw [List.getD_eq_getElem?_getD, List.getElem?_append_right (le_of_eq hlenA), hlenA]
    simp
  have hget11 : (((groups58 10 w).map Base64.encode) ++
      [Base64.encode (w * 2 ^ 60 % 2 ^ 64 / 2 ^ 58 ||| b / 64),
       Base64.encode (b % 64)]).getD 11 0
      = Base64.encode (b % 64) := by
    rw [List.getD_eq_getElem?_getD, List.getElem?_append_right (by omega), hlenA]
    simp
  rw [hget10, hget11]
  rw [decFoldSB_map _ _ _ _ (fun g hg => by
    have hlt := groups58_lt 10 w hw g hg
    exact ⟨b64_enc_dec g hlt, by omega⟩)]
  rw [foldSB_groups58 10 4 0 w (by norm_num) hw]
  simp only [Option.bind_eq_bind, Option.some_bind, Nat.zero_mul, Nat.zero_add]
  rw [hc10, b64_enc_dec _ (by omega), tryDec, if_pos (by omega)]
  simp only [Option.some_bind]
  rw [b64_enc_dec _ (by omega), tryDec, if_pos (by omega)]
  simp only [Option.some_bind]
  rw [lor_eq_add_of_mod 4 _ _ (by omega) (by omega),
      lor_eq_add_of_mod 6 _ _ (by omega) (by omega)]
  congr 2
  · omega
  · omega

theorem sc15_roundtrip (w v : Nat) (hw : w < 2 ^ 64) (hw16 : w % 16 = 0)
    (hv : v < 2 ^ 32) (hv4 : v % 4 = 0) :
    Sc15Hash.decode (Sc15Hash.encode ⟨w, v⟩) = some ⟨w, v⟩ := by
  have hlenA : ((groups58 10 w).map Sc15Char.encode).length = 10 := by
    rw [List.length_map, groups58_length]
  unfold Sc15Hash.encode Sc15Hash.decode decode_sc_sha1
  simp only
  rw [if_neg (by simp [groups58_length, groups26_length])]
  rw [List.take_left' hlenA, List.drop_left' hlenA]
  rw [decFoldSB_map _ _ _ _ (fun g hg => by
    have hlt := groups58_lt 10 w hw g hg
    exact ⟨sc15_enc_dec g hlt, by omega⟩)]
  rw [decFoldSB_map _ _ _ _ (fun g hg => by
    have hlt := groups26_lt 5 v hv g hg
    exact ⟨sc15_enc_dec g hlt, by omega⟩)]
  rw [foldSB_groups58 10 4 0 w (by norm_num) hw,
      foldSB_groups26 5 2 0 v (by norm_num) hv]
  simp only [Option.bind_eq_bind, Option.some_bind, Nat.zero_mul, Nat.zero_add]
  congr 2
  · omega
  · omega



theorem kana_enc_len : ∀ i < 64, (ScKatakana.encode i).length = if i = 63 then 1 else 3 := by
  decide

theorem kana_dec1_enc : ∀ i < 64, ∀ rest : List Nat,
    kana_dec1 (ScKatakana.encode i ++ rest) = some (i, rest) := by
  have htab : ∀ i < 64,
      (i ≤ 0x14 → SC_KATAKANA_DECODING_EFBD.getD (0xAB + i) 0x40 = i) ∧
      (0x15 ≤ i → i ≤ 0x33 → SC_KATAKANA_DECODING_EFBE.getD (0x80 + (i - 0x15)) 0x40 = i) ∧
      (0x34 ≤ i → i ≤ 0x3D → SC_KATAKANA_DECODING_EFBD.getD (0xA1 + (i - 0x34)) 0x40 = i) := by
    decide
  intro i hi rest
  unfold ScKatakana.encode
  split_ifs with h1 h2 h3 h4
  · simp only [List.cons_append, List.nil_append, kana_dec1]
    rw [(htab i hi).1 h1, tryDec, if_pos (by omega)]
    rfl
  · simp only [List.cons_append, List.nil_append, kana_dec1]
    rw [(htab i hi).2.1 (by omega) h2, tryDec, if_pos (by omega)]
    rfl
  · simp only [List.cons_append, List.nil_append, kana_dec1]
    rw [(htab i hi).2.2 (by omega) h3, tryDec, if_pos (by omega)]
    rfl
  · subst h4
    simp only [List.cons_append, List.nil_append, kana_dec1]
    rfl
  · have : i = 63 := by omega
    subst this
    simp only [List.cons_append, List.nil_append, kana_dec1]

theorem kana_dec_groups_flat (gs : List Nat) : ∀ acc rest, (∀ g ∈ gs, g < 64) →
    kana_dec_groups gs.length acc (gs.flatMap ScKatakana.encode ++ rest)
      = some (gs.foldl (fun a g => a * 64 ||| g) acc, rest) := by
  induction gs with
  | nil => intro acc rest _; rfl
  | cons g gs ih =>
    intro acc rest hlt
    have hg := hlt g (by simp)
    simp only [List.flatMap_cons, List.length_cons, List.append_assoc, List.foldl_cons]
    show kana_dec_groups (gs.length + 1) acc _ = _
    simp only [kana_dec_groups, kana_dec1_enc g hg]
    exact ih _ _ (fun x hx => hlt x (by simp [hx]))

theorem foldSB_or_eq_add (gs : List Nat) : ∀ acc, (∀ g ∈ gs, g < 64) →
    gs.foldl (fun a g => a * 64 ||| g) acc = gs.foldl (fun a g => a * 64 + g) acc := by
  induction gs with
  | nil => intro acc _; rfl
  | cons g gs ih =>
    intro acc hlt
    simp only [List.foldl_cons]
    rw [lor_eq_add_of_mod 6 _ _ (by omega) (by exact (by have := hlt g (by simp); omega))]
    exact ih _ (fun x hx => hlt x (by simp [hx]))

theorem kana_roundtrip (w v : Nat) (hw : w < 2 ^ 64) (hw16 : w % 16 = 0)
    (hv : v < 2 ^ 32) (hv4 : v % 4 = 0) :
    ScKatakanaHash.decode (ScKatakanaHash.encode ⟨⟨w, v⟩⟩) = some ⟨⟨w, v⟩⟩ := by
  have hwlt := groups58_lt 10 w hw
  have hvlt := groups26_lt 5 v hv
  unfold ScKatakanaHash.encode ScKatakanaHash.decode
  simp only
  have h1 : kana_dec_groups 10 0 ((groups58 10 w).flatMap ScKatakana.encode ++
      (groups26 5 v).flatMap ScKatakana.encode)
      = some ((groups58 10 w).foldl (fun a g => a * 64 ||| g) 0,
          (groups26 5 v).flatMap ScKatakana.encode) := by
    have := kana_dec_groups_flat (groups58 10 w) 0
      ((groups26 5 v).flatMap ScKatakana.encode) hwlt
    rwa [groups58_length] at this
  rw [h1]
  dsimp only
  have h2 : kana_dec_groups 5 0 ((groups26 5 v).flatMap ScKatakana.encode)
      = some ((groups26 5 v).foldl (fun a g => a * 64 ||| g) 0, []) := by
    have := kana_dec_groups_flat (groups26 5 v) 0 [] hvlt
    rwa [groups26_length, List.append_nil] at this
  rw [h2]
  dsimp only
  simp only [if_pos rfl]
  rw [foldSB_or_eq_add _ _ hwlt, foldSB_or_eq_add _ _ hvlt,
      foldSB_groups58 10 4 0 w (by norm_num) hw,
      foldSB_groups26 5 2 0 v (by norm_num) hv]
  have hgen : ∀ x y : Nat, x = w → y = v →
      (some (ScKatakanaHash.mk (Sc15Hash.mk x y)) : Option ScKatakanaHash)
        = some ⟨⟨w, v⟩⟩ := by
    intro x y hx hy
    rw [hx, hy]
  exact hgen _ _ (by omega) (by omega)

/-! ## Tagged-hash round trips -/
/-- The padding pattern of a `FourchanHash`: 58 significant bits
top-aligned in the 64-bit word, low 6 bits zero. -/
def FourchanHash.valid (h : FourchanHash) : Prop :=
  h.val < 2 ^ 64 ∧ h.val % 64 = 0

/-- The padding pattern of a `Mona12Hash`: all 72 bits significant. -/
def Mona12Hash.valid (h : Mona12Hash) : Prop :=
  h.w < 2 ^ 64 ∧ h.b < 256

/-- The padding pattern of an `Sc15Hash`: top 60 bits of `w`, top 30
bits of `v`. -/
def Sc15Hash.valid (h : Sc15Hash) : Prop :=
  h.w < 2 ^ 64 ∧ h.w % 16 = 0 ∧ h.v < 2 ^ 32 ∧ h.v % 4 = 0

/-- Per-variant padding pattern of a `MonaHash`. -/
def MonaHash.valid : MonaHash → Prop
  | .ten h => h.valid
  | .twelve h => h.valid
  | .error => True

/-- Per-variant padding pattern of an `ScHash`. -/
def ScHash.valid : ScHash → Prop
  | .ten h => h.valid
  | .twelve h => h.valid
  | .fifteen h => h.valid
  | .katakana h => h.h.valid
  | .error => True

/-- The one katakana hash value whose text is `"!!!!!!!!!!!!!!!"`. -/
def allOnesKatakana : ScKatakanaHash := ⟨⟨0xFFFFFFFFFFFFFFF0, 0xFFFFFFFC⟩⟩

theorem fourchan_encode_len (h : FourchanHash) : h.encode.length = 10 := by
  simp [FourchanHash.encode, groups58_length]

theorem mona12_encode_len (h : Mona12Hash) : h.encode.length = 12 := by
  simp [Mona12Hash.encode, groups58_length]

theorem sc15_encode_len (h : Sc15Hash) : h.encode.length = 15 := by
  simp [Sc15Hash.encode, groups58_length, groups26_length]

theorem kana_flat_facts (gs : List Nat) : (∀ g ∈ gs, g < 64) →
    gs.length ≤ (gs.flatMap ScKatakana.encode).length ∧
    (gs.flatMap ScKatakana.encode).length % 2 = gs.length % 2 ∧
    ((gs.flatMap ScKatakana.encode).length = gs.length → ∀ g ∈ gs, g = 63) := by
  induction gs with
  | nil => intro _; simp
  | cons g gs ih =>
    intro hlt
    have hg := hlt g (by simp)
    have hrest := ih (fun x hx => hlt x (by simp [hx]))
    have hlen := kana_enc_len g hg
    simp only [List.flatMap_cons, List.length_append, List.length_cons]
    by_cases hg63 : g = 63
    · rw [hlen, if_pos hg63]
      refine ⟨by omega, by omega, ?_⟩
      intro heq x hx
      rcases List.mem_cons.1 hx with h | h
      · rw [h, hg63]
      · exact hrest.2.2 (by omega) x h
    · rw [hlen, if_neg hg63]
      refine ⟨by omega, by omega, ?_⟩
      intro heq
      omega

theorem kana_encode_facts (h : ScKatakanaHash) (hval : h.h.valid) :
    15 ≤ h.encode.length ∧ h.encode.length % 2 = 1 ∧
      (h.encode.length = 15 → h = allOnesKatakana) := by
  obtain ⟨hw, hw16, hv, hv4⟩ := hval
  have hwlt := groups58_lt 10 h.h.w hw
  have hvlt := groups26_lt 5 h.h.v hv
  have hA := kana_flat_facts (groups58 10 h.h.w) hwlt
  have hB := kana_flat_facts (groups26 5 h.h.v) hvlt
  have hlenA := groups58_length 10 h.h.w
  have hlenB := groups26_length 5 h.h.v
  have henc : h.encode.length = ((groups58 10 h.h.w).flatMap ScKatakana.encode).length +
      ((groups26 5 h.h.v).flatMap ScKatakana.encode).length := by
    simp [ScKatakanaHash.encode]
  refine ⟨by omega, by omega, ?_⟩
  intro h15
  have hallA : ∀ g ∈ groups58 10 h.h.w, g = 63 := hA.2.2 (by omega)
  have hallB : ∀ g ∈ groups26 5 h.h.v, g = 63 := hB.2.2 (by omega)
  have hrepA : groups58 10 h.h.w = List.replicate 10 63 :=
    List.eq_replicate_iff.2 ⟨hlenA, hallA⟩
  have hrepB : groups26 5 h.h.v = List.replicate 5 63 :=
    List.eq_replicate_iff.2 ⟨hlenB, hallB⟩
  have hfw := foldSB_groups58 10 4 0 h.h.w (by norm_num) hw
  have hfv := foldSB_groups26 5 2 0 h.h.v (by norm_num) hv
  rw [hrepA] at hfw
  rw [hrepB] at hfv
  have hcw : (List.replicate 10 63).foldl (fun a g => a * 64 + g) 0 = 2 ^ 60 - 1 := by
    decide
  have hcv : (List.replicate 5 63).foldl (fun a g => a * 64 + g) 0 = 2 ^ 30 - 1 := by
    decide
  rw [hcw] at hfw
  rw [hcv] at hfv
  have hweq : h.h.w = 0xFFFFFFFFFFFFFFF0 := by omega
  have hveq : h.h.v = 0xFFFFFFFC := by omega
  show h = allOnesKatakana
  obtain ⟨⟨w0, v0⟩⟩ := h
  simp only at hweq hveq
  rw [allOnesKatakana, hweq, hveq]

theorem monahash_roundtrip (mh : MonaHash) (hval : mh.valid) :
    MonaHash.decode (MonaHash.encode mh) = some mh := by
  cases mh with
  | ten h =>
    obtain ⟨h64, hpad⟩ := hval
    unfold MonaHash.encode MonaHash.decode
    rw [if_pos (fourchan_encode_len h)]
    obtain ⟨hv⟩ := h
    rw [fourchan_roundtrip hv h64 hpad]
    rfl
  | twelve h =>
    obtain ⟨h64, hb⟩ := hval
    unfold MonaHash.encode MonaHash.decode
    rw [if_neg (by rw [mona12_encode_len h]; omega), if_pos (mona12_encode_len h)]
    obtain ⟨hw, hbb⟩ := h
    rw [mona12_roundtrip hw hbb h64 hb]
    rfl
  | error =>
    decide

theorem schash_roundtrip (sh : ScHash) (hval : sh.valid)
    (hne : sh ≠ .katakana allOnesKatakana) :
    ScHash.decode (ScHash.encode sh) = some sh := by
  cases sh with
  | ten h =>
    obtain ⟨h64, hpad⟩ := hval
    unfold ScHash.encode ScHash.decode
    rw [if_pos (fourchan_encode_len h)]
    obtain ⟨hv⟩ := h
    rw [fourchan_roundtrip hv h64 hpad]
    rfl
  | twelve h =>
    obtain ⟨h64, hb⟩ := hval
    unfold ScHash.encode ScHash.decode
    rw [if_neg (by rw [mona12_encode_len h]; omega), if_pos (mona12_encode_len h)]
    obtain ⟨hw, hbb⟩ := h
    rw [mona12_roundtrip hw hbb h64 hb]
    rfl
  | fifteen h =>
    obtain ⟨h64, h16, hv32, hv4⟩ := hval
    unfold ScHash.encode ScHash.decode
    rw [if_neg (by rw [sc15_encode_len h]; omega),
        if_neg (by rw [sc15_encode_len h]; omega), if_pos (sc15_encode_len h)]
    obtain ⟨hw, hvv⟩ := h
    rw [sc15_roundtrip hw hvv h64 h16 hv32 hv4]
    rfl
  | katakana h =>
    have hfacts := kana_encode_facts h hval
    have hne15 : h.encode.length ≠ 15 := by
      intro h15
      exact hne (by rw [hfacts.2.2 h15])
    obtain ⟨h64, h16, hv32, hv4⟩ := hval
    have hred : ScHash.encode (.katakana h) = h.encode := rfl
    rw [hred]
    unfold ScHash.decode
    rw [if_neg (by omega), if_neg (by omega), if_neg hne15, if_neg (by omega),
        if_pos (by omega)]
    obtain ⟨⟨hw, hvv⟩⟩ := h
    rw [kana_roundtrip hw hvv h64 h16 hv32 hv4]
    rfl
  | error =>
    decide

/-! ## Salt-table lemmas (for C7) -/

/-- The canonical crypt-style salt alphabet `./0-9A-Za-z` named by the
spec for the salt tables. -/
def SALT_ALPHABET : List Nat :=
  [46, 47] ++ (List.range 10).map (48 + ·) ++ (List.range 26).map (65 + ·) ++
    (List.range 26).map (97 + ·)

theorem salt_fold_byte : ∀ b : Nat, b < 256 →
    SALT_DECODING.getD b 0 ≤ 63 ∧
    SALT_ALPHABET.getD (SALT_DECODING.getD b 0) 0 ∈ SALT_ALPHABET ∧
    SALT_DECODING.getD (SALT_ALPHABET.getD (SALT_DECODING.getD b 0) 0) 0
      = SALT_DECODING.getD b 0 := by decide

theorem strict_byte_iff : ∀ b : Nat, b < 256 →
    (SALT_DECODING_STRICT.getD b 0 ≤ 63 ↔ b ∈ SALT_ALPHABET) := by decide

theorem strict_agree_byte : ∀ b : Nat, b < 256 → b ∈ SALT_ALPHABET →
    SALT_DECODING_STRICT.getD b 0 = SALT_DECODING.getD b 0 := by decide

theorem salt_alphabet_lt : ∀ b : Nat, b ∈ SALT_ALPHABET → b < 256 := by decide

/-! ## The claims -/

/-- C1 (amended): for every scheme's hash type (`FourchanHash` =
`Mona10Hash`, `Mona12Hash`, `Sc15Hash`, `ScKatakanaHash`, and the tagged
`MonaHash` and `ScHash`) and every hash value whose padding bits carry
the scheme's fixed pattern, decoding the encoded text returns the value
— except for the single `ScHash` value `Katakana(allOnesKatakana)`
(whose 15-byte text `"!!!!!!!!!!!!!!!"` decodes as `Fifteen` of the same
bit pattern), which the claim as stated wrongly includes. -/
theorem C1_decode_encode_roundtrip :
    (∀ h : FourchanHash, h.valid → FourchanHash.decode h.encode = some h) ∧
    (∀ h : Mona12Hash, h.valid → Mona12Hash.decode h.encode = some h) ∧
    (∀ h : Sc15Hash, h.valid → Sc15Hash.decode h.encode = some h) ∧
    (∀ h : ScKatakanaHash, h.h.valid → ScKatakanaHash.decode h.encode = some h) ∧
    (∀ mh : MonaHash, mh.valid → MonaHash.decode mh.encode = some mh) ∧
    (∀ sh : ScHash, sh.valid → sh ≠ .katakana allOnesKatakana →
      ScHash.decode sh.encode = some sh) := by
  refine ⟨?_, ?_, ?_, ?_, monahash_roundtrip, schash_roundtrip⟩
  · intro ⟨hv⟩ ⟨h64, hpad⟩
    exact fourchan_roundtrip hv h64 hpad
  · intro ⟨w, b⟩ ⟨h64, hb⟩
    exact mona12_roundtrip w b h64 hb
  · intro ⟨w, v⟩ ⟨h64, h16, hv32, hv4⟩
    exact sc15_roundtrip w v h64 h16 hv32 hv4
  · intro ⟨⟨w, v⟩⟩ ⟨h64, h16, hv32, hv4⟩
    exact kana_roundtrip w v h64 h16 hv32 hv4

/-- C1 counterexample: the all-ones katakana hash carries the scheme's
padding pattern, yet its encoding (fifteen `!` bytes) decodes as the
`Fifteen` variant, not back to `Katakana`. -/
theorem C1_counterexample :
    (ScHash.katakana allOnesKatakana).valid ∧
    ScHash.decode (ScHash.encode (.katakana allOnesKatakana))
      = some (.fifteen ⟨0xFFFFFFFFFFFFFFF0, 0xFFFFFFFC⟩) ∧
    ScHash.decode (ScHash.encode (.katakana allOnesKatakana))
      ≠ some (.katakana allOnesKatakana) := by
  exact ⟨⟨by decide, by decide, by decide, by decide⟩, by decide, by decide⟩

/-- C1 witness: each component of the round-trip theorem applied at a
concrete hash value. -/
theorem C1_roundtrip_witness :
    FourchanHash.decode (FourchanHash.encode ⟨64⟩) = some ⟨64⟩ ∧
    Mona12Hash.decode (Mona12Hash.encode ⟨1, 2⟩) = some ⟨1, 2⟩ ∧
    Sc15Hash.decode (Sc15Hash.encode ⟨16, 4⟩) = some ⟨16, 4⟩ ∧
    ScKatakanaHash.decode (ScKatakanaHash.encode ⟨⟨16, 4⟩⟩) = some ⟨⟨16, 4⟩⟩ ∧
    MonaHash.decode (MonaHash.encode (.ten ⟨64⟩)) = some (.ten ⟨64⟩) ∧
    ScHash.decode (ScHash.encode (.katakana ⟨⟨16, 4⟩⟩)) = some (.katakana ⟨⟨16, 4⟩⟩) :=
  ⟨C1_decode_encode_roundtrip.1 ⟨64⟩ ⟨by decide, by decide⟩,
   C1_decode_encode_roundtrip.2.1 ⟨1, 2⟩ ⟨by decide, by decide⟩,
   C1_decode_encode_roundtrip.2.2.1 ⟨16, 4⟩ ⟨by decide, by decide, by decide, by decide⟩,
   C1_decode_encode_roundtrip.2.2.2.1 ⟨⟨16, 4⟩⟩ ⟨by decide, by decide, by decide, by decide⟩,
   C1_decode_encode_roundtrip.2.2.2.2.1 (.ten ⟨64⟩) ⟨by decide, by decide⟩,
   C1_decode_encode_roundtrip.2.2.2.2.2 (.katakana ⟨⟨16, 4⟩⟩)
     ⟨by decide, by decide, by decide, by decide⟩ (by decide)⟩

/-- C5: for both tagged hash types, the `Error` variant encodes (in
ASCII and in Shift-JIS) to exactly the 3-byte text `"???"`, the text
`"???"` decodes to `Error`, and `Error` round-trips through every
encode/decode pair. -/
theorem C5_error_roundtrip :
    MonaHash.encode .error = errorTripcode ∧
    ScHash.encode .error = errorTripcode ∧
    ScHash.encode_sjis .error = errorTripcode ∧
    MonaHash.decode errorTripcode = some .error ∧
    ScHash.decode errorTripcode = some .error ∧
    ScHash.decode_from_sjis errorTripcode = some .error ∧
    MonaHash.decode (MonaHash.encode .error) = some .error ∧
    ScHash.decode (ScHash.encode .error) = some .error ∧
    ScHash.decode_from_sjis (ScHash.encode_sjis .error) = some .error := by
  decide

/-- C7: `decode_salt` folds every byte pair onto the value of a
canonical-alphabet pair instead of rejecting; `decode_salt_strict`
returns `none` exactly when either byte is outside the canonical
alphabet `./0-9A-Za-z`, and agrees with `decode_salt` on alphabet
bytes. -/
theorem C7_salt_tables :
    (∀ b0 b1, b0 < 256 → b1 < 256 → ∃ c0 c1, c0 ∈ SALT_ALPHABET ∧ c1 ∈ SALT_ALPHABET ∧
        decode_salt b0 b1 = decode_salt c0 c1) ∧
    (∀ b0 b1, b0 < 256 → b1 < 256 →
        (decode_salt_strict b0 b1 = none ↔ b0 ∉ SALT_ALPHABET ∨ b1 ∉ SALT_ALPHABET)) ∧
    (∀ b0 b1, b0 ∈ SALT_ALPHABET → b1 ∈ SALT_ALPHABET →
        decode_salt_strict b0 b1 = some (decode_salt b0 b1)) := by
  refine ⟨?_, ?_, ?_⟩
  · intro b0 b1 hb0 hb1
    obtain ⟨_, hmem0, heq0⟩ := salt_fold_byte b0 hb0
    obtain ⟨_, hmem1, heq1⟩ := salt_fold_byte b1 hb1
    exact ⟨_, _, hmem0, hmem1, by rw [decode_salt, decode_salt, heq0, heq1]⟩
  · intro b0 b1 hb0 hb1
    have h0 := strict_byte_iff b0 hb0
    have h1 := strict_byte_iff b1 hb1
    have hexp : decode_salt_strict b0 b1 =
        if SALT_DECODING_STRICT.getD b0 0 ≤ 63 then
          if SALT_DECODING_STRICT.getD b1 0 ≤ 63 then
            some ((SALT_DECODING_STRICT.getD b0 0 * 2 ^ 26) |||
              (SALT_DECODING_STRICT.getD b1 0 * 2 ^ 18))
          else none
        else none := rfl
    rw [hexp]
    split_ifs with hd1 hd2
    · simp only [reduceCtorEq, false_iff]
      push_neg
      exact ⟨h0.1 hd1, h1.1 hd2⟩
    · simp only [true_iff]
      right
      intro hmem
      exact hd2 (h1.2 hmem)
    · simp only [true_iff]
      left
      intro hmem
      exact hd1 (h0.2 hmem)
  · intro b0 b1 hb0 hb1
    have hlt0 := salt_alphabet_lt b0 hb0
    have hlt1 := salt_alphabet_lt b1 hb1
    have ha0 := strict_agree_byte b0 hlt0 hb0
    have ha1 := strict_agree_byte b1 hlt1 hb1
    have hle0 : SALT_DECODING_STRICT.getD b0 0 ≤ 63 := (strict_byte_iff b0 hlt0).2 hb0
    have hle1 : SALT_DECODING_STRICT.getD b1 0 ≤ 63 := (strict_byte_iff b1 hlt1).2 hb1
    have hexp : decode_salt_strict b0 b1 =
        if SALT_DECODING_STRICT.getD b0 0 ≤ 63 then
          if SALT_DECODING_STRICT.getD b1 0 ≤ 63 then
            some ((SALT_DECODING_STRICT.getD b0 0 * 2 ^ 26) |||
              (SALT_DECODING_STRICT.getD b1 0 * 2 ^ 18))
          else none
        else none := rfl
    rw [hexp, if_pos hle0, if_pos hle1, ha0, ha1]
    rfl

/-- C7 witness: the salt-table theorem applied at concrete bytes. -/
theorem C7_salt_witness :
    (∃ c0 c1, c0 ∈ SALT_ALPHABET ∧ c1 ∈ SALT_ALPHABET ∧
        decode_salt 0 255 = decode_salt c0 c1) ∧
    (decode_salt_strict 33 46 = none ↔ (33 : Nat) ∉ SALT_ALPHABET ∨ (46 : Nat) ∉ SALT_ALPHABET) ∧
    decode_salt_strict 46 122 = some (decode_salt 46 122) :=
  ⟨C7_salt_tables.1 0 255 (by decide) (by decide),
   C7_salt_tables.2.1 33 46 (by decide) (by decide),
   C7_salt_tables.2.2 46 122 (by decide) (by decide)⟩

/-- C8: under the escaping scheme, the tripcode generated for the raw
password `abc"def` equals the one generated for the pre-escaped password
`abc&quot;def` (and equals the crate's documented vector
`TIWS518hyaVm`). -/
theorem C8_escaping_equivalence :
    Mona.generate [97, 98, 99, 34, 100, 101, 102] =
      Mona.generate [97, 98, 99, 38, 113, 117, 111, 116, 59, 100, 101, 102] ∧
    Mona.generate [97, 98, 99, 34, 100, 101, 102] =
      [84, 73, 87, 83, 53, 49, 56, 104, 121, 97, 86, 109] := by
  decide

theorem escape_len_sum (esc : Nat → Option (List Nat)) (p : List Nat) :
    (p.map fun c => ((esc c).map List.length).getD 1).sum
      = (escape_stream esc p).length := by
  induction p with
  | nil => rfl
  | cons c rest ih =>
    simp only [List.map_cons, List.sum_cons, escape_stream, List.flatMap_cons,
      List.length_append] at *
    rw [ih]
    cases h : esc c <;> simp [h]

/-- C2: `Mona::hash` classifies a password by the length `n` of its
2channel-escaped form and its first raw byte: `n ≥ 12` and `'#'` tries
the nama-key derivation (`Ten` on success, `Error` on failure); `n ≥ 12`
and `'$'` is `Error`; other passwords with `n ≥ 12` get the 12-character
hash; shorter ones the 10-character hash. -/
theorem C2_mona_dispatch (p : List Nat) :
    Mona.hash p =
      (if 12 ≤ (escape_stream mona_escape p).length then
        if p.getD 0 0 = 35 then
          match MonaRaw.try_hash p with
          | some h => .ten h
          | none => .error
        else if p.getD 0 0 = 36 then .error
        else .twelve (Mona12.hash p)
      else .ten (Mona10.hash p)) := by
  unfold Mona.hash mona_internal
  rw [if_pos rfl]
  rw [escape_len_sum]

/-- C2 witness: the dispatch theorem applied at a 12-byte `'$'`
password, giving the `Error` classification. -/
theorem C2_mona_dispatch_witness :
    Mona.hash [36, 50, 51, 52, 53, 54, 55, 56, 57, 48, 49, 50] = .error := by
  rw [C2_mona_dispatch]
  decide




/-! ## The salt bytes of the escaped DES loop (for C3) -/

theorem desLoop_cons_some (esc : Nat → Option (List Nat)) {c : Nat} {e : List Nat}
    (hc : esc c = some e) (rest : List Nat) (st : DesState) :
    desLoop esc (c :: rest) st =
      (if 8 ≤ st.j + e.length then
        (⟨st.key ||| pack_u64_be e / 2 ^ (8 * st.j),
          if st.j = 0 then e.getD 1 0 else if st.j = 1 then e.getD 0 0 else st.s1,
          if st.j = 0 then e.getD 2 0 else if st.j = 1 then e.getD 1 0
            else if st.j = 2 then e.getD 0 0 else st.s2,
          st.j + e.length⟩ : DesState)
      else desLoop esc rest
        ⟨st.key ||| pack_u64_be e / 2 ^ (8 * st.j),
          if st.j = 0 then e.getD 1 0 else if st.j = 1 then e.getD 0 0 else st.s1,
          if st.j = 0 then e.getD 2 0 else if st.j = 1 then e.getD 1 0
            else if st.j = 2 then e.getD 0 0 else st.s2,
          st.j + e.length⟩) := by
  simp only [desLoop, hc]

theorem desLoop_cons_none (esc : Nat → Option (List Nat)) {c : Nat}
    (hc : esc c = none) (rest : List Nat) (st : DesState) :
    desLoop esc (c :: rest) st =
      (if 8 ≤ st.j + 1 then
        (⟨st.key ||| c * 2 ^ (8 * (7 - st.j)),
          if st.j = 1 then c else st.s1,
          if st.j = 2 then c else st.s2,
          st.j + 1⟩ : DesState)
      else desLoop esc rest
        ⟨st.key ||| c * 2 ^ (8 * (7 - st.j)),
          if st.j = 1 then c else st.s1,
          if st.j = 2 then c else st.s2,
          st.j + 1⟩) := by
  simp only [desLoop, hc]

theorem desLoop_salt (esc : Nat → Option (List Nat))
    (hesc : ∀ c e, esc c = some e → 3 ≤ e.length) :
    ∀ (p : List Nat) (st : DesState),
      ((desLoop esc p st).j = st.j + (escape_stream esc p).length ∨
        8 ≤ (desLoop esc p st).j) ∧
      (desLoop esc p st).s1 =
        (if st.j ≤ 1 ∧ 2 ≤ st.j + (escape_stream esc p).length then
          (escape_stream esc p).getD (1 - st.j) 0 else st.s1) ∧
      (desLoop esc p st).s2 =
        (if st.j ≤ 2 ∧ 3 ≤ st.j + (escape_stream esc p).length then
          (escape_stream esc p).getD (2 - st.j) 0 else st.s2) := by
  intro p
  induction p with
  | nil =>
    intro st
    refine ⟨Or.inl (by simp [escape_stream, desLoop]), ?_, ?_⟩
    · rw [if_neg (by simp [escape_stream]; omega)]
      rfl
    · rw [if_neg (by simp [escape_stream]; omega)]
      rfl
  | cons c rest ih =>
    intro st
    obtain ⟨key, s1, s2, j⟩ := st
    have hS : escape_stream esc (c :: rest) = (esc c).getD [c] ++ escape_stream esc rest := by
      simp [escape_stream]
    cases hc : esc c with
    | some e =>
      have hel := hesc c e hc
      rw [desLoop_cons_some esc hc, hS, hc]
      simp only [Option.getD_some, List.length_append]
      match j with
      | 0 =>
        simp only [show ((0 : Nat) = 0) = True by simp, if_true, Nat.zero_add]
        by_cases hbreak : 8 ≤ e.length
        · rw [if_pos hbreak]
          refine ⟨Or.inr hbreak, ?_, ?_⟩
          · rw [if_pos ⟨by omega, by omega⟩]
            show e.getD 1 0 = _
            rw [List.getD_append _ _ _ _ (by omega)]
          · rw [if_pos ⟨by omega, by omega⟩]
            show e.getD 2 0 = _
            rw [List.getD_append _ _ _ _ (by omega)]
        · rw [if_neg hbreak]
          have hih := ih ⟨key ||| pack_u64_be e / 2 ^ (8 * 0), e.getD 1 0, e.getD 2 0,
            0 + e.length⟩
          simp only [Nat.zero_add] at hih
          refine ⟨?_, ?_, ?_⟩
          · rcases hih.1 with h | h
            · exact Or.inl (by omega)
            · exact Or.inr h
          · rw [hih.2.1, if_neg (by omega), if_pos ⟨by omega, by omega⟩]
            show e.getD 1 0 = _
            rw [List.getD_append _ _ _ _ (by omega)]
          · rw [hih.2.2, if_neg (by omega), if_pos ⟨by omega, by omega⟩]
            show e.getD 2 0 = _
            rw [List.getD_append _ _ _ _ (by omega)]
      | 1 =>
        simp only [show ((1 : Nat) = 0) = False by simp, if_false,
          show ((1 : Nat) = 1) = True by simp, if_true]
        by_cases hbreak : 8 ≤ 1 + e.length
        · rw [if_pos hbreak]
          refine ⟨Or.inr hbreak, ?_, ?_⟩
          · rw [if_pos ⟨by omega, by omega⟩]
            show e.getD 0 0 = _
            rw [List.getD_append _ _ _ _ (by omega)]
          · rw [if_pos ⟨by omega, by omega⟩]
            show e.getD 1 0 = _
            rw [List.getD_append _ _ _ _ (by omega)]
        · rw [if_neg hbreak]
          have hih := ih ⟨key ||| pack_u64_be e / 2 ^ (8 * 1), e.getD 0 0, e.getD 1 0,
            1 + e.length⟩
          simp only at hih
          refine ⟨?_, ?_, ?_⟩
          · rcases hih.1 with h | h
            · exact Or.inl (by omega)
            · exact Or.inr h
          · rw [hih.2.1, if_neg (by omega), if_pos ⟨by omega, by omega⟩]
            show e.getD 0 0 = _
            rw [List.getD_append _ _ _ _ (by omega)]
          · rw [hih.2.2, if_neg (by omega), if_pos ⟨by omega, by omega⟩]
            show e.getD 1 0 = _
            rw [List.getD_append _ _ _ _ (by omega)]
      | 2 =>
        simp only [show ((2 : Nat) = 0) = False by simp, if_false,
          show ((2 : Nat) = 1) = False by simp,
          show ((2 : Nat) = 2) = True by simp, if_true]
        by_cases hbreak : 8 ≤ 2 + e.length
        · rw [if_pos hbreak]
          refine ⟨Or.inr hbreak, ?_, ?_⟩
          · rw [if_neg (by omega)]
          · rw [if_pos ⟨by omega, by omega⟩]
            show e.getD 0 0 = _
            rw [List.getD_append _ _ _ _ (by omega)]
        · rw [if_neg hbreak]
          have hih := ih ⟨key ||| pack_u64_be e / 2 ^ (8 * 2), s1, e.getD 0 0,
            2 + e.length⟩
          simp only at hih
          refine ⟨?_, ?_, ?_⟩
          · rcases hih.1 with h | h
            · exact Or.inl (by omega)
            · exact Or.inr h
          · rw [hih.2.1, if_neg (by omega), if_neg (by omega)]
          · rw [hih.2.2, if_neg (by omega), if_pos ⟨by omega, by omega⟩]
            show e.getD 0 0 = _
            rw [List.getD_append _ _ _ _ (by omega)]
      | (j + 3) =>
        simp only [show (j + 3 = 0) = False by simp, if_false,
          show (j + 3 = 1) = False by simp,
          show (j + 3 = 2) = False by simp]
        by_cases hbreak : 8 ≤ j + 3 + e.length
        · rw [if_pos hbreak]
          refine ⟨Or.inr hbreak, ?_, ?_⟩
          · rw [if_neg (by omega)]
          · rw [if_neg (by omega)]
        · rw [if_neg hbreak]
          have hih := ih ⟨key ||| pack_u64_be e / 2 ^ (8 * (j + 3)), s1, s2,
            j + 3 + e.length⟩
          simp only at hih
          refine ⟨?_, ?_, ?_⟩
          · rcases hih.1 with h | h
            · exact Or.inl (by omega)
            · exact Or.inr h
          · rw [hih.2.1, if_neg (by omega), if_neg (by omega)]
          · rw [hih.2.2, if_neg (by omega), if_neg (by omega)]
    | none =>
      rw [desLoop_cons_none esc hc, hS, hc]
      simp only [Option.getD_none, List.length_cons, List.singleton_append]
      match j with
      | 0 =>
        simp only [show ((0 : Nat) = 1) = False by simp, if_false,
          show ((0 : Nat) = 2) = False by simp, Nat.zero_add]
        rw [if_neg (by omega)]
        have hih := ih ⟨key ||| c * 2 ^ (8 * (7 - 0)), s1, s2, 0 + 1⟩
        simp only [Nat.zero_add] at hih
        refine ⟨?_, ?_, ?_⟩
        · rcases hih.1 with h | h
          · exact Or.inl (by omega)
          · exact Or.inr h
        · rw [hih.2.1]
          by_cases hlen : 1 ≤ (escape_stream esc rest).length
          · rw [if_pos ⟨by omega, by omega⟩, if_pos ⟨by omega, by omega⟩]
            show _ = (c :: escape_stream esc rest).getD 1 0
            rw [List.getD_cons_succ]
          · rw [if_neg (by omega), if_neg (by omega)]
        · rw [hih.2.2]
          by_cases hlen : 2 ≤ (escape_stream esc rest).length
          · rw [if_pos ⟨by omega, by omega⟩, if_pos ⟨by omega, by omega⟩]
            show _ = (c :: escape_stream esc rest).getD 2 0
            rw [List.getD_cons_succ]
          · rw [if_neg (by omega), if_neg (by omega)]
      | 1 =>
        simp only [show ((1 : Nat) = 1) = True by simp, if_true,
          show ((1 : Nat) = 2) = False by simp, if_false]
        rw [if_neg (by omega)]
        have hih := ih ⟨key ||| c * 2 ^ (8 * (7 - 1)), c, s2, 1 + 1⟩
        simp only at hih
        refine ⟨?_, ?_, ?_⟩
        · rcases hih.1 with h | h
          · exact Or.inl (by omega)
          · exact Or.inr h
        · rw [hih.2.1, if_neg (by omega), if_pos ⟨by omega, by omega⟩]
          show c = _
          rfl
        · rw [hih.2.2]
          by_cases hlen : 1 ≤ (escape_stream esc rest).length
          · rw [if_pos ⟨by omega, by omega⟩, if_pos ⟨by omega, by omega⟩]
            show _ = (c :: escape_stream esc rest).getD 1 0
            rw [List.getD_cons_succ]
          · rw [if_neg (by omega), if_neg (by omega)]
      | 2 =>
        simp only [show ((2 : Nat) = 1) = False by simp, if_false,
          show ((2 : Nat) = 2) = True by simp, if_true]
        rw [if_neg (by omega)]
        have hih := ih ⟨key ||| c * 2 ^ (8 * (7 - 2)), s1, c, 2 + 1⟩
        simp only at hih
        refine ⟨?_, ?_, ?_⟩
        · rcases hih.1 with h | h
          · exact Or.inl (by omega)
          · exact Or.inr h
        · rw [hih.2.1, if_neg (by omega), if_neg (by omega)]
        · rw [hih.2.2, if_neg (by omega), if_pos ⟨by omega, by omega⟩]
          show c = _
          rfl
      | (j + 3) =>
        simp only [show (j + 3 = 1) = False by simp, if_false,
          show (j + 3 = 2) = False by simp]
        by_cases hbreak : 8 ≤ j + 3 + 1
        · rw [if_pos hbreak]
          refine ⟨Or.inr hbreak, ?_, ?_⟩
          · rw [if_neg (by omega)]
          · rw [if_neg (by omega)]
        · rw [if_neg hbreak]
          have hih := ih ⟨key ||| c * 2 ^ (8 * (7 - (j + 3))), s1, s2, j + 3 + 1⟩
          simp only at hih
          refine ⟨?_, ?_, ?_⟩
          · rcases hih.1 with h | h
            · exact Or.inl (by omega)
            · exact Or.inr h
          · rw [hih.2.1, if_neg (by omega), if_neg (by omega)]
          · rw [hih.2.2, if_neg (by omega), if_neg (by omega)]


theorem desLoop_j_le (esc : Nat → Option (List Nat)) :
    ∀ (p : List Nat) (st : DesState),
      (desLoop esc p st).j ≤ st.j + (escape_stream esc p).length := by
  intro p
  induction p with
  | nil =>
    intro st
    simp [desLoop, escape_stream]
  | cons c rest ih =>
    intro st
    have hS : escape_stream esc (c :: rest) = (esc c).getD [c] ++ escape_stream esc rest := by
      simp [escape_stream]
    rw [hS]
    cases hc : esc c with
    | some e =>
      rw [desLoop_cons_some esc hc]
      simp only [Option.getD_some, List.length_append]
      by_cases hbreak : 8 ≤ st.j + e.length
      · rw [if_pos hbreak]
        show st.j + e.length ≤ _
        omega
      · rw [if_neg hbreak]
        have := ih ⟨st.key ||| pack_u64_be e / 2 ^ (8 * st.j),
          if st.j = 0 then e.getD 1 0 else if st.j = 1 then e.getD 0 0 else st.s1,
          if st.j = 0 then e.getD 2 0 else if st.j = 1 then e.getD 1 0
            else if st.j = 2 then e.getD 0 0 else st.s2,
          st.j + e.length⟩
        simp only at this
        omega
    | none =>
      rw [desLoop_cons_none esc hc]
      simp only [Option.getD_none, List.singleton_append, List.length_cons]
      by_cases hbreak : 8 ≤ st.j + 1
      · rw [if_pos hbreak]
        show st.j + 1 ≤ _
        omega
      · rw [if_neg hbreak]
        have := ih ⟨st.key ||| c * 2 ^ (8 * (7 - st.j)),
          if st.j = 1 then c else st.s1,
          if st.j = 2 then c else st.s2, st.j + 1⟩
        simp only at this
        omega

theorem getD_irrel (l : List Nat) (n : Nat) (h : n < l.length) (d d' : Nat) :
    l.getD n d = l.getD n d' := by
  rw [List.getD_eq_getElem?_getD, List.getD_eq_getElem?_getD,
    List.getElem?_eq_getElem h]
  rfl

theorem fourchan_escape_len : ∀ c e, fourchan_escape c = some e → 3 ≤ e.length := by
  intro c e h
  unfold fourchan_escape at h
  split_ifs at h
  all_goals simp only [Option.some.injEq, reduceCtorEq] at h
  all_goals subst h
  all_goals decide

theorem mona_escape_len : ∀ c e, mona_escape c = some e → 3 ≤ e.length := by
  intro c e h
  unfold mona_escape at h
  split_ifs at h
  all_goals simp only [Option.some.injEq, reduceCtorEq] at h
  all_goals subst h
  all_goals decide

/-- The salt pair selected by the escaped DES loop, characterized on the
escaped stream: bytes at escaped positions 1 and 2, with fallback
`('H', '.')` when the stream is shorter than 2 bytes and `'H'` for the
second byte when it is exactly 2 bytes long. -/
theorem des_escaped_salt_eq (esc : Nat → Option (List Nat))
    (hesc : ∀ c e, esc c = some e → 3 ≤ e.length) (p : List Nat) :
    des_escaped_salt esc p =
      ((escape_stream esc p).getD 1 72,
       if 3 ≤ (escape_stream esc p).length then (escape_stream esc p).getD 2 0
       else if (escape_stream esc p).length = 2 then 72 else 46) := by
  have h := desLoop_salt esc hesc p ⟨0, 72, 46, 0⟩
  have hle := desLoop_j_le esc p ⟨0, 72, 46, 0⟩
  simp only at h hle
  obtain ⟨hj, hs1, hs2⟩ := h
  have hexp : des_escaped_salt esc p =
      ((desLoop esc p ⟨0, 72, 46, 0⟩).s1,
       if (desLoop esc p ⟨0, 72, 46, 0⟩).j = 2 then 72
       else (desLoop esc p ⟨0, 72, 46, 0⟩).s2) := rfl
  by_cases h3 : 3 ≤ (escape_stream esc p).length
  · have hc1 : 0 ≤ 1 ∧ 2 ≤ 0 + (escape_stream esc p).length := ⟨by omega, by omega⟩
    have hc2 : 0 ≤ 2 ∧ 3 ≤ 0 + (escape_stream esc p).length := ⟨by omega, by omega⟩
    rw [if_pos hc1] at hs1
    rw [if_pos hc2] at hs2
    have hjne : (desLoop esc p ⟨0, 72, 46, 0⟩).j ≠ 2 := by
      rcases hj with h | h <;> omega
    rw [hexp, hs1, hs2, if_neg hjne, if_pos h3]
    rw [getD_irrel _ 1 (by omega) 0 72]
  · by_cases h2 : (escape_stream esc p).length = 2
    · have hc1 : 0 ≤ 1 ∧ 2 ≤ 0 + (escape_stream esc p).length := ⟨by omega, by omega⟩
      rw [if_pos hc1] at hs1
      rw [if_neg (by omega)] at hs2
      have hj2 : (desLoop esc p ⟨0, 72, 46, 0⟩).j = 2 := by
        rcases hj with h | h <;> omega
      rw [hexp, hs1, hs2, if_pos hj2, if_neg h3, if_pos h2]
      rw [getD_irrel _ 1 (by omega) 0 72]
    · rw [if_neg (by omega)] at hs1
      rw [if_neg (by omega)] at hs2
      have hjne : (desLoop esc p ⟨0, 72, 46, 0⟩).j ≠ 2 := by
        rcases hj with h | h <;> omega
      rw [hexp, hs1, hs2, if_neg hjne, if_neg h3, if_neg h2]
      rw [List.getD_eq_default _ _ (by omega)]

/-- C3 (amended): in the DES-based derivations, the two salt bytes fed
to `decode_salt` are the *second and third* escaped bytes (escaped
positions 1 and 2), with fallback `('H', '.')` when the escaped password
is shorter than 2 bytes and `'H'` for the second salt byte when it is
exactly 2 bytes — for `Fourchan::hash` and `Mona10::hash` on the escaped
stream, and for `FourchanNonescaping::hash` on the raw bytes. -/
theorem C3_salt_selection (p : List Nat) :
    des_escaped_salt fourchan_escape p =
      ((escape_stream fourchan_escape p).getD 1 72,
       if 3 ≤ (escape_stream fourchan_escape p).length then
         (escape_stream fourchan_escape p).getD 2 0
       else if (escape_stream fourchan_escape p).length = 2 then 72 else 46) ∧
    des_escaped_salt mona_escape p =
      ((escape_stream mona_escape p).getD 1 72,
       if 3 ≤ (escape_stream mona_escape p).length then
         (escape_stream mona_escape p).getD 2 0
       else if (escape_stream mona_escape p).length = 2 then 72 else 46) ∧
    FourchanNonescaping.salt p =
      (p.getD 1 72,
       if 3 ≤ p.length then p.getD 2 0
       else if p.length = 2 then 72 else 46) := by
  refine ⟨des_escaped_salt_eq _ fourchan_escape_len p,
    des_escaped_salt_eq _ mona_escape_len p, ?_⟩
  unfold FourchanNonescaping.salt
  split_ifs with h1 h2 <;> try omega
  · rw [List.getD_eq_default _ _ (by omega)]
  · rw [getD_irrel _ 1 (by omega) 0 72]
  · rw [getD_irrel _ 1 (by omega) 0 72]

/-- C3 counterexample: for the two-byte password `"ab"` the salt pair
actually used is `('b', 'H')` — the second byte and the `'H'` fallback —
refuting both the "first two escaped bytes" selection and the `'.'`
fallback for the second salt byte that the claim states. -/
theorem C3_counterexample :
    des_escaped_salt mona_escape [97, 98] = (98, 72) ∧
    (des_escaped_salt mona_escape [97, 98]).1 ≠ 97 ∧
    (des_escaped_salt mona_escape [97, 98]).2 ≠ 46 := by
  decide

end Tripcode

namespace Tripcode

set_option maxRecDepth 8192

/-- A byte that is a hexadecimal digit (`0-9`, `A-F`, `a-f`), as the
spec words it. -/
def isHexByte (c : Nat) : Prop :=
  (48 ≤ c ∧ c ≤ 57) ∨ (65 ≤ c ∧ c ≤ 70) ∨ (97 ≤ c ∧ c ≤ 102)

instance (c : Nat) : Decidable (isHexByte c) := by
  unfold isHexByte
  infer_instance

theorem hex_to_i_le : ∀ c : Nat, hex_to_i c ≤ 0x10 := by
  intro c
  by_cases h : c < 256
  · exact (by decide : ∀ c < 256, hex_to_i c ≤ 0x10) c h
  · unfold hex_to_i
    rw [List.getD_eq_default _ _ (by rw [(by decide : HEX_DECODING.length = 256)]; omega)]
    omega

theorem hex_to_i_iff : ∀ c : Nat, c < 256 → (hex_to_i c ≠ 0x10 ↔ isHexByte c) := by
  decide

theorem getD_byte_lt (p : List Nat) (hp : ∀ b ∈ p, b < 256) (n : Nat)
    (h : n < p.length) : p.getD n 0 < 256 := by
  rw [List.getD_eq_getElem _ _ h]
  exact hp _ (List.getElem_mem h)

theorem slice_hex_iff (p : List Nat) (m : Nat) (hlen : 17 ≤ p.length) :
    ((((p.take 17).drop m).all fun c => hex_to_i c ≠ 0x10) = true ↔
      ∀ k, m ≤ k → k < 17 → hex_to_i (p.getD k 0) ≠ 0x10) := by
  rw [List.all_eq_true]
  simp only [decide_eq_true_eq]
  constructor
  · intro h k hk1 hk2
    have hidx : k - m < ((p.take 17).drop m).length := by
      simp only [List.length_drop, List.length_take]
      omega
    have hx := h (((p.take 17).drop m)[k - m]) (List.getElem_mem hidx)
    have hval : ((p.take 17).drop m)[k - m] = p.getD k 0 := by
      rw [List.getElem_drop, List.getElem_take, List.getD_eq_getElem _ _ (by omega)]
      congr 1
      omega
    rwa [hval] at hx
  · intro h x hx
    obtain ⟨idx, hidx, rfl⟩ := List.getElem_of_mem hx
    have hidx' : idx < 17 - m := by
      have := hidx
      simp only [List.length_drop, List.length_take] at this
      omega
    have hval : ((p.take 17).drop m)[idx] = p.getD (m + idx) 0 := by
      rw [List.getElem_drop, List.getElem_take, List.getD_eq_getElem _ _ (by omega)]
    rw [hval]
    exact h (m + idx) (by omega) (by omega)

theorem packedBytes_isSome (p : List Nat) (hlen : 17 ≤ p.length) :
    ∀ fuel i, 2 * i + 2 * fuel = 16 →
      ((MonaRaw.packedBytes p fuel i).isSome = true ↔
        ∀ k, 2 * i + 1 ≤ k → k < 17 → hex_to_i (p.getD k 0) ≠ 0x10) := by
  intro fuel
  induction fuel with
  | zero =>
    intro i hi
    constructor
    · intro _ k hk1 hk2
      omega
    · intro _
      simp [MonaRaw.packedBytes]
  | succ fuel ih =>
    intro i hi
    have hb1 := hex_to_i_le (p.getD (2 * i + 1) 0)
    have hb0 := hex_to_i_le (p.getD (2 * i + 2) 0)
    unfold MonaRaw.packedBytes
    by_cases h1 : hex_to_i (p.getD (2 * i + 1) 0) ≤ 0xF
    · rw [if_pos h1]
      by_cases h0 : hex_to_i (p.getD (2 * i + 2) 0) ≤ 0xF
      · rw [if_pos h0]
        have hor : hex_to_i (p.getD (2 * i + 1) 0) * 16 ||| hex_to_i (p.getD (2 * i + 2) 0)
            = hex_to_i (p.getD (2 * i + 1) 0) * 16 + hex_to_i (p.getD (2 * i + 2) 0) := by
          exact lor_eq_add_of_mod 4 _ _ (by omega) (by omega)
        rw [hor]
        by_cases hz : hex_to_i (p.getD (2 * i + 1) 0) * 16 + hex_to_i (p.getD (2 * i + 2) 0) = 0
        · rw [if_pos hz]
          by_cases hall : (((p.take 17).drop (2 * i + 1)).all fun c => hex_to_i c ≠ 0x10) = true
          · rw [if_pos hall]
            exact iff_of_true rfl ((slice_hex_iff p (2 * i + 1) hlen).1 hall)
          · rw [if_neg hall]
            exact iff_of_false (by simp)
              (fun hf => hall ((slice_hex_iff p (2 * i + 1) hlen).2 hf))
        · rw [if_neg hz]
          rw [Option.isSome_map']
          rw [ih (i + 1) (by omega)]
          constructor
          · intro h k hk1 hk2
            rcases Nat.lt_or_ge k (2 * i + 3) with hk | hk
            · rcases Nat.lt_or_ge k (2 * i + 2) with hk' | hk'
              · have : k = 2 * i + 1 := by omega
                rw [this]
                omega
              · have : k = 2 * i + 2 := by omega
                rw [this]
                omega
            · exact h k (by omega) hk2
          · intro h k hk1 hk2
            exact h k (by omega) hk2
      · rw [if_neg h0]
        exact iff_of_false (by simp)
          (fun hf => h0 (by have := hf (2 * i + 2) (by omega) (by omega); omega))
    · rw [if_neg h1]
      exact iff_of_false (by simp)
        (fun hf => h1 (by have := hf (2 * i + 1) (by omega) (by omega); omega))

theorem decode_salt_strict_isSome (a b : Nat) (ha : a < 256) (hb : b < 256) :
    ((decode_salt_strict a b).isSome = true ↔ a ∈ SALT_ALPHABET ∧ b ∈ SALT_ALPHABET) := by
  have h0 := strict_byte_iff a ha
  have h1 := strict_byte_iff b hb
  have hexp : decode_salt_strict a b =
      if SALT_DECODING_STRICT.getD a 0 ≤ 63 then
        if SALT_DECODING_STRICT.getD b 0 ≤ 63 then
          some ((SALT_DECODING_STRICT.getD a 0 * 2 ^ 26) |||
            (SALT_DECODING_STRICT.getD b 0 * 2 ^ 18))
        else none
      else none := rfl
  rw [hexp]
  split_ifs with hd1 hd2
  · exact iff_of_true rfl ⟨h0.1 hd1, h1.1 hd2⟩
  · exact iff_of_false (by simp) (fun hcon => hd2 (h1.2 hcon.2))
  · exact iff_of_false (by simp) (fun hcon => hd1 (h0.2 hcon.1))

/-- C4 (amended): `MonaRaw::try_hash(p)` returns `Some` exactly when
`p` has length 17, 18 or 19; the 16 bytes at positions 1–16 are all hex
digits (the early stop at the first `00` pair never excuses a non-hex
byte, because it demands that every remaining byte up to position 17
still be a hex digit); and the optional trailing bytes at positions 17
and 18 are strict salt characters.  Unlike the claim as stated, the
function does not require — and never reads — the leading `'#'`: that
gating happens in the dispatchers. -/
theorem C4_raw_key_validity (p : List Nat) (hp : ∀ b ∈ p, b < 256) :
    (MonaRaw.try_hash p).isSome = true ↔
      ((p.length = 17 ∨ p.length = 18 ∨ p.length = 19) ∧
       (∀ i, i ≤ 16 → 1 ≤ i → isHexByte (p.getD i 0)) ∧
       (18 ≤ p.length → p.getD 17 0 ∈ SALT_ALPHABET) ∧
       (p.length = 19 → p.getD 18 0 ∈ SALT_ALPHABET)) := by
  have hexp : MonaRaw.try_hash p =
      match (if p.length = 17 then some 0
        else if p.length = 18 then decode_salt_strict (p.getD 17 0) 46
        else if p.length = 19 then decode_salt_strict (p.getD 17 0) (p.getD 18 0)
        else none : Option Nat) with
      | none => none
      | some salt =>
        match MonaRaw.packedBytes p 8 0 with
        | none => none
        | some packed => some ⟨zero_cipher_58 (secret_to_key packed) salt⟩ := rfl
  by_cases h17 : p.length = 17
  · rw [hexp, if_pos h17]
    have hpk := packedBytes_isSome p (by omega) 8 0 (by omega)
    constructor
    · intro hs
      refine ⟨Or.inl h17, ?_, by omega, by omega⟩
      intro i hi1 hi2
      rcases hpk' : MonaRaw.packedBytes p 8 0 with _ | packed
      · rw [hpk'] at hs
        simp at hs
      · have hhex := hpk.1 (by rw [hpk']; rfl)
        have := hhex i (by omega) (by omega)
        exact (hex_to_i_iff _ (getD_byte_lt p hp i (by omega))).1 this
    · intro ⟨_, hhex, _, _⟩
      have : (MonaRaw.packedBytes p 8 0).isSome = true := by
        rw [hpk]
        intro k hk1 hk2
        exact (hex_to_i_iff _ (getD_byte_lt p hp k (by omega))).2
          (hhex k (by omega) (by omega))
      rcases hpk' : MonaRaw.packedBytes p 8 0 with _ | packed
      · rw [hpk'] at this
        simp at this
      · rfl
  · by_cases h18 : p.length = 18
    · rw [hexp, if_neg h17, if_pos h18]
      have hpk := packedBytes_isSome p (by omega) 8 0 (by omega)
      have hsalt := decode_salt_strict_isSome (p.getD 17 0) 46
        (getD_byte_lt p hp 17 (by omega)) (by omega)
      constructor
      · intro hs
        rcases hsal : decode_salt_strict (p.getD 17 0) 46 with _ | salt
        · rw [hsal] at hs
          simp at hs
        · have hmem := (hsalt.1 (by rw [hsal]; rfl)).1
          rcases hpk' : MonaRaw.packedBytes p 8 0 with _ | packed
          · rw [hsal, hpk'] at hs
            simp at hs
          · have hhex := hpk.1 (by rw [hpk']; rfl)
            refine ⟨Or.inr (Or.inl h18), ?_, fun _ => hmem, by omega⟩
            intro i hi1 hi2
            exact (hex_to_i_iff _ (getD_byte_lt p hp i (by omega))).1
              (hhex i (by omega) (by omega))
      · intro ⟨_, hhex, hs17, _⟩
        have hsal : (decode_salt_strict (p.getD 17 0) 46).isSome = true :=
          hsalt.2 ⟨hs17 (by omega), by decide⟩
        have hpks : (MonaRaw.packedBytes p 8 0).isSome = true := by
          rw [hpk]
          intro k hk1 hk2
          exact (hex_to_i_iff _ (getD_byte_lt p hp k (by omega))).2
            (hhex k (by omega) (by omega))
        rcases hsal' : decode_salt_strict (p.getD 17 0) 46 with _ | salt
        · rw [hsal'] at hsal
          simp at hsal
        · rcases hpk' : MonaRaw.packedBytes p 8 0 with _ | packed
          · rw [hpk'] at hpks
            simp at hpks
          · rfl
    · by_cases h19 : p.length = 19
      · rw [hexp, if_neg h17, if_neg h18, if_pos h19]
        have hpk := packedBytes_isSome p (by omega) 8 0 (by omega)
        have hsalt := decode_salt_strict_isSome (p.getD 17 0) (p.getD 18 0)
          (getD_byte_lt p hp 17 (by omega)) (getD_byte_lt p hp 18 (by omega))
        constructor
        · intro hs
          rcases hsal : decode_salt_strict (p.getD 17 0) (p.getD 18 0) with _ | salt
          · rw [hsal] at hs
            simp at hs
          · have hmem := hsalt.1 (by rw [hsal]; rfl)
            rcases hpk' : MonaRaw.packedBytes p 8 0 with _ | packed
            · rw [hsal, hpk'] at hs
              simp at hs
            · have hhex := hpk.1 (by rw [hpk']; rfl)
              refine ⟨Or.inr (Or.inr h19), ?_, fun _ => hmem.1, fun _ => hmem.2⟩
              intro i hi1 hi2
              exact (hex_to_i_iff _ (getD_byte_lt p hp i (by omega))).1
                (hhex i (by omega) (by omega))
        · intro ⟨_, hhex, hs17, hs18⟩
          have hsal : (decode_salt_strict (p.getD 17 0) (p.getD 18 0)).isSome = true :=
            hsalt.2 ⟨hs17 (by omega), hs18 h19⟩
          have hpks : (MonaRaw.packedBytes p 8 0).isSome = true := by
            rw [hpk]
            intro k hk1 hk2
            exact (hex_to_i_iff _ (getD_byte_lt p hp k (by omega))).2
              (hhex k (by omega) (by omega))
          rcases hsal' : decode_salt_strict (p.getD 17 0) (p.getD 18 0) with _ | salt
          · rw [hsal'] at hsal
            simp at hsal
          · rcases hpk' : MonaRaw.packedBytes p 8 0 with _ | packed
            · rw [hpk'] at hpks
              simp at hpks
            · rfl
      · rw [hexp, if_neg h17, if_neg h18, if_neg h19]
        exact iff_of_false (by simp)
          (fun ⟨hlen, _, _, _⟩ => by rcases hlen with h | h | h <;> omega)

/-- C4 counterexample: a password of valid length, hex secret and salt
that does not start with `'#'` still yields `Some` — `try_hash` never
inspects the first byte, so the claim's leading-`'#'` requirement is
wrong. -/
theorem C4_counterexample :
    (MonaRaw.try_hash
      [88, 48, 49, 50, 51, 52, 53, 54, 55, 56, 57, 97, 98, 99, 100, 101, 102, 46, 47]
      ).isSome = true ∧
    [88, 48, 49, 50, 51, 52, 53, 54, 55, 56, 57, 97, 98, 99, 100, 101, 102, 46, 47].getD
      0 0 ≠ 35 := by
  decide

/-- C4 witness: the validity characterization applied at the crate's
documented nama-key password `#0123456789abcdef./`. -/
theorem C4_raw_key_witness :
    (MonaRaw.try_hash
      [35, 48, 49, 50, 51, 52, 53, 54, 55, 56, 57, 97, 98, 99, 100, 101, 102, 46, 47]
      ).isSome = true :=
  (C4_raw_key_validity _ (by decide)).2 (by decide)

end Tripcode

namespace Tripcode

theorem packFrom_ge8 (l : List Nat) (j : Nat) (hj : 8 ≤ j) : packFrom j l = 0 := by
  cases l with
  | nil => rfl
  | cons b rest =>
    unfold packFrom
    rw [if_neg (by omega)]

theorem packFrom_append : ∀ (e s : List Nat) (j : Nat),
    packFrom j (e ++ s) = packFrom j e + packFrom (j + e.length) s := by
  intro e
  induction e with
  | nil =>
    intro s j
    simp [packFrom]
  | cons b rest ih =>
    intro s j
    by_cases hj : j < 8
    · show (if j < 8 then b * 2 ^ (8 * (7 - j)) + packFrom (j + 1) (rest ++ s) else 0) =
        (if j < 8 then b * 2 ^ (8 * (7 - j)) + packFrom (j + 1) rest else 0) +
          packFrom (j + (b :: rest).length) s
      rw [if_pos hj, if_pos hj, ih s (j + 1)]
      have hlen : j + (b :: rest).length = j + 1 + rest.length := by
        simp only [List.length_cons]
        omega
      rw [hlen]
      exact (Nat.add_assoc _ _ _).symm
    · rw [packFrom_ge8 (b :: rest ++ s) j (by omega), packFrom_ge8 (b :: rest) j (by omega),
        packFrom_ge8 s (j + (b :: rest).length) (by simp only [List.length_cons]; omega)]

theorem packFrom_lt : ∀ (l : List Nat) (j : Nat), (∀ b ∈ l, b < 256) →
    packFrom j l < 2 ^ (8 * (8 - j)) := by
  intro l
  induction l with
  | nil =>
    intro j _
    exact Nat.pos_pow_of_pos _ (by norm_num)
  | cons b rest ih =>
    intro j hb
    by_cases hj : j < 8
    · unfold packFrom
      rw [if_pos hj]
      have h1 : packFrom (j + 1) rest < 2 ^ (8 * (7 - j)) := by
        have := ih (j + 1) (fun x hx => hb x (List.mem_cons_of_mem _ hx))
        have he : 8 - (j + 1) = 7 - j := by omega
        rwa [he] at this
      have h2 : b < 256 := hb b (List.mem_cons_self b rest)
      have h3 : 8 * (8 - j) = 8 * (7 - j) + 8 := by omega
      rw [h3, pow_add]
      have h4 : (2 : Nat) ^ 8 = 256 := by norm_num
      rw [h4]
      nlinarith [Nat.pos_pow_of_pos (8 * (7 - j)) (show 0 < 2 by norm_num)]
    · rw [packFrom_ge8 _ _ (by omega)]
      exact Nat.pos_pow_of_pos _ (by norm_num)

theorem packFrom_dvd : ∀ (l : List Nat) (j : Nat),
    (2 : Nat) ^ (8 * (8 - (j + l.length))) ∣ packFrom j l := by
  intro l
  induction l with
  | nil =>
    intro j
    exact Dvd.intro 0 rfl
  | cons b rest ih =>
    intro j
    by_cases hj : j < 8
    · unfold packFrom
      rw [if_pos hj]
      apply Nat.dvd_add
      · apply Dvd.dvd.mul_left
        apply pow_dvd_pow
        simp only [List.length_cons]
        omega
      · have := ih (j + 1)
        have he : 8 - (j + 1 + rest.length) = 8 - (j + (b :: rest).length) := by
          simp only [List.length_cons]
          omega
        rwa [he] at this
    · rw [packFrom_ge8 _ _ (by omega)]
      exact Dvd.intro 0 rfl

theorem packFrom_div_256 : ∀ (l : List Nat) (j : Nat), (∀ b ∈ l, b < 256) →
    packFrom j l / 256 = packFrom (j + 1) l := by
  intro l
  induction l with
  | nil =>
    intro j _
    simp [packFrom]
  | cons b rest ih =>
    intro j hb
    by_cases hj8 : 8 ≤ j
    · rw [packFrom_ge8 _ _ hj8, packFrom_ge8 _ _ (by omega)]
    · by_cases hj7 : j = 7
      · subst hj7
        show (if 7 < 8 then b * 2 ^ (8 * (7 - 7)) + packFrom 8 rest else 0) / 256 = _
        rw [if_pos (by norm_num), packFrom_ge8 _ _ (by norm_num),
          packFrom_ge8 _ _ (by norm_num)]
        have h2 : b < 256 := hb b (List.mem_cons_self b rest)
        simp only [Nat.sub_self, Nat.mul_zero, pow_zero, Nat.mul_one, Nat.add_zero]
        omega
      · have hj : j < 7 := by omega
        show (if j < 8 then b * 2 ^ (8 * (7 - j)) + packFrom (j + 1) rest else 0) / 256 = _
        rw [if_pos (by omega)]
        have hsplit : 8 * (7 - j) = 8 + 8 * (6 - j) := by omega
        rw [hsplit, pow_add]
        have h4 : (2 : Nat) ^ 8 = 256 := by norm_num
        rw [h4]
        have hre : b * (256 * 2 ^ (8 * (6 - j))) + packFrom (j + 1) rest =
            256 * (b * 2 ^ (8 * (6 - j))) + packFrom (j + 1) rest := by ring
        rw [hre, Nat.mul_add_div (by norm_num),
          ih (j + 1) (fun x hx => hb x (List.mem_cons_of_mem _ hx))]
        show _ = if j + 1 < 8 then b * 2 ^ (8 * (7 - (j + 1))) + packFrom (j + 2) rest else 0
        rw [if_pos (by omega)]
        have he : 7 - (j + 1) = 6 - j := by omega
        rw [he]

theorem pack_u64_be_div : ∀ (j : Nat) (l : List Nat), (∀ b ∈ l, b < 256) →
    pack_u64_be l / 2 ^ (8 * j) = packFrom j l := by
  intro j
  induction j with
  | zero =>
    intro l _
    simp [pack_u64_be]
  | succ j ih =>
    intro l hb
    have hsplit : 8 * (j + 1) = 8 * j + 8 := by omega
    rw [hsplit, pow_add, ← Nat.div_div_eq_div_mul, ih l hb,
      (by norm_num : (2 : Nat) ^ 8 = 256), packFrom_div_256 l j hb]

theorem packFrom_lor_append (e s : List Nat) (j : Nat) (hs : ∀ b ∈ s, b < 256)
    (hj : j + e.length ≤ 8) :
    packFrom j e ||| packFrom (j + e.length) s = packFrom j (e ++ s) := by
  rw [packFrom_append]
  apply lor_eq_add_of_mod (8 * (8 - (j + e.length)))
  · exact Nat.mod_eq_zero_of_dvd (packFrom_dvd e j)
  · exact packFrom_lt s (j + e.length) hs

theorem escape_stream_lt (esc : Nat → Option (List Nat))
    (he : ∀ c e, esc c = some e → ∀ b ∈ e, b < 256) (p : List Nat)
    (hp : ∀ b ∈ p, b < 256) : ∀ b ∈ escape_stream esc p, b < 256 := by
  intro b hb
  rw [escape_stream, List.mem_flatMap] at hb
  obtain ⟨c, hc, hbc⟩ := hb
  cases hec : esc c with
  | some e =>
    rw [hec] at hbc
    exact he c e hec b hbc
  | none =>
    rw [hec] at hbc
    simp only [Option.getD_none, List.mem_cons, List.not_mem_nil, or_false] at hbc
    subst hbc
    exact hp b hc

theorem fourchan_escape_lt : ∀ c e, fourchan_escape c = some e → ∀ b ∈ e, b < 256 := by
  intro c e h b hb
  unfold fourchan_escape at h
  split_ifs at h
  all_goals simp only [Option.some.injEq, reduceCtorEq] at h
  all_goals subst h
  all_goals simp only [List.mem_cons, List.not_mem_nil, or_false] at hb
  all_goals omega

theorem mona_escape_lt : ∀ c e, mona_escape c = some e → ∀ b ∈ e, b < 256 := by
  intro c e h b hb
  unfold mona_escape at h
  split_ifs at h
  all_goals simp only [Option.some.injEq, reduceCtorEq] at h
  all_goals subst h
  all_goals simp only [List.mem_cons, List.not_mem_nil, or_false] at hb
  all_goals omega

theorem desLoop_key (esc : Nat → Option (List Nat))
    (he : ∀ c e, esc c = some e → ∀ b ∈ e, b < 256) :
    ∀ (p : List Nat) (st : DesState), (∀ b ∈ p, b < 256) → st.j < 8 →
      (desLoop esc p st).key = st.key ||| packFrom st.j (escape_stream esc p) := by
  intro p
  induction p with
  | nil =>
    intro st _ _
    show st.key = st.key ||| packFrom st.j []
    rw [show packFrom st.j [] = 0 from rfl, Nat.or_zero]
  | cons c rest ih =>
    intro st hp hj
    have hp' : ∀ b ∈ rest, b < 256 := fun b hb => hp b (List.mem_cons_of_mem _ hb)
    have hrest : ∀ b ∈ escape_stream esc rest, b < 256 :=
      escape_stream_lt esc he rest hp'
    cases hc : esc c with
    | some e =>
      have hstream : escape_stream esc (c :: rest) = e ++ escape_stream esc rest := by
        simp [escape_stream, hc]
      rw [desLoop_cons_some esc hc, hstream]
      by_cases hbreak : 8 ≤ st.j + e.length
      · rw [if_pos hbreak]
        show st.key ||| pack_u64_be e / 2 ^ (8 * st.j) = _
        rw [pack_u64_be_div st.j e (he c e hc), packFrom_append,
          packFrom_ge8 (escape_stream esc rest) (st.j + e.length) (by omega), Nat.add_zero]
      · rw [if_neg hbreak]
        rw [ih ⟨st.key ||| pack_u64_be e / 2 ^ (8 * st.j),
          if st.j = 0 then e.getD 1 0 else if st.j = 1 then e.getD 0 0 else st.s1,
          if st.j = 0 then e.getD 2 0 else if st.j = 1 then e.getD 1 0
            else if st.j = 2 then e.getD 0 0 else st.s2,
          st.j + e.length⟩ hp' (by show st.j + e.length < 8; omega)]
        show (st.key ||| pack_u64_be e / 2 ^ (8 * st.j)) |||
          packFrom (st.j + e.length) (escape_stream esc rest) = _
        rw [pack_u64_be_div st.j e (he c e hc), Nat.lor_assoc,
          packFrom_lor_append e _ st.j hrest (by omega)]
    | none =>
      have hstream : escape_stream esc (c :: rest) = c :: escape_stream esc rest := by
        simp [escape_stream, hc]
      have hsingle : packFrom st.j [c] = c * 2 ^ (8 * (7 - st.j)) := by
        show (if st.j < 8 then c * 2 ^ (8 * (7 - st.j)) + packFrom (st.j + 1) [] else 0) = _
        rw [if_pos hj]
        rfl
      rw [desLoop_cons_none esc hc, hstream,
        show (c :: escape_stream esc rest) = [c] ++ escape_stream esc rest from rfl]
      by_cases hbreak : 8 ≤ st.j + 1
      · rw [if_pos hbreak]
        show st.key ||| c * 2 ^ (8 * (7 - st.j)) = _
        rw [packFrom_append]
        simp only [List.length_cons, List.length_nil]
        rw [packFrom_ge8 (escape_stream esc rest) (st.j + (0 + 1)) (by omega),
          Nat.add_zero, hsingle]
      · rw [if_neg hbreak]
        rw [ih ⟨st.key ||| c * 2 ^ (8 * (7 - st.j)),
          if st.j = 1 then c else st.s1, if st.j = 2 then c else st.s2,
          st.j + 1⟩ hp' (by show st.j + 1 < 8; omega)]
        show (st.key ||| c * 2 ^ (8 * (7 - st.j))) |||
          packFrom (st.j + 1) (escape_stream esc rest) = _
        rw [← hsingle, Nat.lor_assoc]
        have hlen1 : ([c] : List Nat).length = 1 := rfl
        have hlor := packFrom_lor_append [c] (escape_stream esc rest) st.j hrest (by rw [hlen1]; omega)
        rw [hlen1] at hlor
        rw [hlor]

theorem packFrom_take : ∀ (l : List Nat) (j : Nat),
    packFrom j (l.take (8 - j)) = packFrom j l := by
  intro l
  induction l with
  | nil =>
    intro j
    rw [List.take_nil]
  | cons b rest ih =>
    intro j
    by_cases hj : j < 8
    · have htake : (b :: rest).take (8 - j) = b :: rest.take (8 - (j + 1)) := by
        have h8 : 8 - j = (8 - (j + 1)) + 1 := by omega
        rw [h8, List.take_succ_cons]
      rw [htake]
      show (if j < 8 then b * 2 ^ (8 * (7 - j)) + packFrom (j + 1) (rest.take (8 - (j + 1)))
        else 0) = _
      rw [if_pos hj, ih (j + 1)]
      show _ = if j < 8 then b * 2 ^ (8 * (7 - j)) + packFrom (j + 1) rest else 0
      rw [if_pos hj]
    · have h0 : 8 - j = 0 := by omega
      rw [h0, List.take_zero, packFrom_ge8 (b :: rest) j (by omega)]
      rfl

/-- C6: the escaped DES key derivation fills exactly an 8-byte window
with the escaped password stream: the accumulated key equals the
big-endian packing of the first 8 escaped bytes.  A replacement entity
that would cross the window boundary is still consumed whole, but only
its in-window bytes contribute (the packing truncates the stream at 8
bytes), and a stream shorter than 8 bytes leaves the remaining window
slots zero (the packing zero-pads).  Proved for both the 4chan and the
2channel escape tables. -/
theorem C6_key_window (p : List Nat) (hp : ∀ b ∈ p, b < 256) :
    des_escaped_key fourchan_escape p =
      pack_u64_be ((escape_stream fourchan_escape p).take 8) ∧
    des_escaped_key mona_escape p =
      pack_u64_be ((escape_stream mona_escape p).take 8) := by
  constructor
  · rw [des_escaped_key, desLoop_key fourchan_escape fourchan_escape_lt p
      ⟨0, 72, 46, 0⟩ hp (by norm_num)]
    show 0 ||| packFrom 0 (escape_stream fourchan_escape p) = _
    rw [Nat.zero_or, pack_u64_be]
    exact (packFrom_take (escape_stream fourchan_escape p) 0).symm
  · rw [des_escaped_key, desLoop_key mona_escape mona_escape_lt p
      ⟨0, 72, 46, 0⟩ hp (by norm_num)]
    show 0 ||| packFrom 0 (escape_stream mona_escape p) = _
    rw [Nat.zero_or, pack_u64_be]
    exact (packFrom_take (escape_stream mona_escape p) 0).symm

/-- C6 witness: the key-window equality at the password `"<a` whose
escaping (6-byte `&quot;` entity then 4-byte `&lt;` entity) crosses the
8-byte key boundary inside the second entity. -/
theorem C6_key_window_witness :
    des_escaped_key fourchan_escape [34, 60, 97] =
      pack_u64_be ((escape_stream fourchan_escape [34, 60, 97]).take 8) ∧
    des_escaped_key mona_escape [34, 60, 97] =
      pack_u64_be ((escape_stream mona_escape [34, 60, 97]).take 8) :=
  C6_key_window [34, 60, 97] (by decide)

end Tripcode

namespace Tripcode

/-! ## Panic-tracking variants (C9)

Each function below mirrors its plain counterpart, but every direct
slice index `password[i]` of the source is performed through `·[·]?`,
and an out-of-bounds read (a Rust panic) surfaces as the outer `none`.
Iterator-based traversals and 256-entry tables indexed by a byte cannot
go out of bounds and stay as in the plain definitions. -/

theorem getElem_opt_eq_getD (p : List Nat) (n : Nat) (h : n < p.length) :
    p[n]? = some (p.getD n 0) := by
  rw [List.getElem?_eq_getElem h, List.getD_eq_getElem _ _ h]

/-- `sc_password_starts_with_katakana` with its reads of
`password[1]`–`password[3]` tracked. -/
def sc_password_starts_with_katakanaChk (p : List Nat) : Option Bool :=
  (p[1]?).bind fun b1 =>
  if b1 = 0xEF then
    (p[2]?).bind fun b2 =>
    if b2 = 0xBD then
      (p[3]?).map fun b3 => decide (0xA1 ≤ b3 ∧ b3 ≤ 0xBF)
    else if b2 = 0xBE then
      (p[3]?).map fun b3 => decide (0x80 ≤ b3 ∧ b3 ≤ 0x9F)
    else some false
  else some false

/-- The key-decoding loop of `MonaRaw::try_hash` with its reads of
`password[2i+1]`, `password[2i+2]` and the slice `password[2i+1..17]`
tracked (the slice panics unless `17 ≤ password.len()`). -/
def MonaRaw.packedBytesChk (p : List Nat) : Nat → Nat → Option (Option (List Nat))
  | 0, _ => some (some [])
  | fuel + 1, i =>
    (p[2 * i + 1]?).bind fun d1 =>
    (p[2 * i + 2]?).bind fun d0 =>
    if hex_to_i d1 ≤ 0xF then
      if hex_to_i d0 ≤ 0xF then
        if hex_to_i d1 * 16 ||| hex_to_i d0 = 0 then
          if 17 ≤ p.length then
            some (if ((p.take 17).drop (2 * i + 1)).all (fun c => hex_to_i c ≠ 0x10)
              then some (List.replicate (fuel + 1) 0) else none)
          else none
        else (MonaRaw.packedBytesChk p fuel (i + 1)).map
          (Option.map ((hex_to_i d1 * 16 ||| hex_to_i d0) :: ·))
      else some none
    else some none

/-- `MonaRaw::try_hash` with its reads of `password[17]` and
`password[18]` tracked; `some none` is the source's `return None`. -/
def MonaRaw.try_hashChk (p : List Nat) : Option (Option Mona10Hash) :=
  let saltCk : Option (Option Nat) :=
    if p.length = 17 then some (some 0)
    else if p.length = 18 then (p[17]?).map fun c => decode_salt_strict c 46
    else if p.length = 19 then
      (p[17]?).bind fun c1 => (p[18]?).map fun c2 => decode_salt_strict c1 c2
    else some none
  match saltCk with
  | none => none
  | some none => some none
  | some (some salt) =>
    match MonaRaw.packedBytesChk p 8 0 with
    | none => none
    | some none => some none
    | some (some packed) => some (some ⟨zero_cipher_58 (secret_to_key packed) salt⟩)

/-- `mona_internal` with its read of `as_ref[0]` tracked. -/
def mona_internalChk (hashTen : List Nat → Mona10Hash)
    (hashTwelve : List Nat → Mona12Hash) (p : List Nat) (escape : Bool) :
    Option MonaHash :=
  let len := if escape then
      (p.map fun c => ((mona_escape c).map List.length).getD 1).sum
    else p.length
  if 12 ≤ len then
    (p[0]?).bind fun sign =>
    if sign = 35 then
      match MonaRaw.try_hashChk p with
      | none => none
      | some none => some .error
      | some (some h) => some (.ten h)
    else if sign = 36 then some .error
    else some (.twelve (hashTwelve p))
  else some (.ten (hashTen p))

/-- `Mona::hash` with all slice reads tracked. -/
def Mona.hashChk (p : List Nat) : Option MonaHash :=
  mona_internalChk Mona10.hash Mona12.hash p true

/-- `MonaNonescaping::hash` with all slice reads tracked. -/
def MonaNonescaping.hashChk (p : List Nat) : Option MonaHash :=
  mona_internalChk Mona10Nonescaping.hash Mona12Nonescaping.hash p false

/-- `sc_internal` with its read of `as_ref[0]` tracked, parameterized by
a read-tracking katakana test. -/
def sc_internalChk (katakanaChk : List Nat → Option Bool) (p : List Nat) :
    Option ScHash :=
  if 12 ≤ p.length then
    (p[0]?).bind fun sign =>
    if sign = 35 then
      match MonaRaw.try_hashChk p with
      | none => none
      | some none => some .error
      | some (some h) => some (.ten h)
    else if sign = 36 then
      (katakanaChk p).map fun kat =>
        if kat then .katakana ⟨Sc15.hash p⟩ else .fifteen (Sc15.hash p)
    else some (.twelve (Mona12Nonescaping.hash p))
  else some (.ten (FourchanNonescaping.hash p))

/-- `Sc::hash` with all slice reads tracked. -/
def Sc.hashChk (p : List Nat) : Option ScHash :=
  sc_internalChk sc_password_starts_with_katakanaChk p

/-- `ScSjis::hash` with all slice reads tracked (the katakana closure
reads `slice[1]`). -/
def ScSjis.hashChk (p : List Nat) : Option ScHash :=
  sc_internalChk (fun s => (s[1]?).map fun c => decide (0xA1 ≤ c ∧ c ≤ 0xDF)) p

/-- `FourchanHash::decode_from_ascii` with its read of `tripcode[9]`
tracked (the character loop is iterator-based). -/
def FourchanHash.decodeChk (t : List Nat) : Option (Option FourchanHash) :=
  if t.length ≠ 10 then some none else
    (t[9]?).map fun c9 => do
      let r ← decFoldSA Crypt.decode (t.take 9) 0
      let d9 ← tryDec (CryptLastChar.decode c9)
      some ⟨(r ||| d9) * 16⟩

/-- `Mona12Hash::decode_from_ascii` with its reads of `tripcode[10]` and
`tripcode[11]` tracked (the character loop is iterator-based). -/
def Mona12Hash.decodeChk (t : List Nat) : Option (Option Mona12Hash) :=
  if t.length ≠ 12 then some none else
    (t[10]?).bind fun c10 => (t[11]?).map fun c11 => do
      let r ← decFoldSB Base64.decode (t.take 10) 0
      let d10 ← tryDec (Base64.decode c10)
      let d11 ← tryDec (Base64.decode c11)
      some ⟨r * 16 ||| d10 / 4, (d10 * 64 ||| d11) % 256⟩

/-- `MonaHash::decode_from_ascii` with the component decoders' reads
tracked. -/
def MonaHash.decodeChk (t : List Nat) : Option (Option MonaHash) :=
  if t.length = 10 then (FourchanHash.decodeChk t).map (Option.map .ten)
  else if t.length = 12 then (Mona12Hash.decodeChk t).map (Option.map .twelve)
  else if t.length = 3 then some (if t = errorTripcode then some .error else none)
  else some none

/-- `ScHash::decode` with the component decoders' reads tracked (the
15-character and katakana decoders are iterator-based, hence total). -/
def ScHash.decodeChk (t : List Nat) : Option (Option ScHash) :=
  if t.length = 10 then (FourchanHash.decodeChk t).map (Option.map .ten)
  else if t.length = 12 then (Mona12Hash.decodeChk t).map (Option.map .twelve)
  else if t.length = 15 then some ((Sc15Hash.decode t).map .fifteen)
  else if t.length = 3 then some (if t = errorTripcode then some .error else none)
  else if 17 ≤ t.length then some ((ScKatakanaHash.decode t).map .katakana)
  else some none

/-- `ScHash::decode_from_sjis` with the component decoders' reads
tracked. -/
def ScHash.decode_from_sjisChk (t : List Nat) : Option (Option ScHash) :=
  if t.length = 10 then (FourchanHash.decodeChk t).map (Option.map .ten)
  else if t.length = 12 then (Mona12Hash.decodeChk t).map (Option.map .twelve)
  else if t.length = 15 then
    some (((Sc15Hash.decode t).map ScHash.fifteen).orElse fun _ =>
      (ScKatakanaHash.decode_from_sjis t).map .katakana)
  else if t.length = 3 then some (if t = errorTripcode then some .error else none)
  else some none

theorem packedBytesChk_eq (p : List Nat) (hlen : 17 ≤ p.length) :
    ∀ fuel i, 2 * i + 2 * fuel = 16 →
      MonaRaw.packedBytesChk p fuel i = some (MonaRaw.packedBytes p fuel i) := by
  intro fuel
  induction fuel with
  | zero =>
    intro i _
    rfl
  | succ fuel ih =>
    intro i hi
    unfold MonaRaw.packedBytesChk MonaRaw.packedBytes
    rw [getElem_opt_eq_getD p (2 * i + 1) (by omega),
      getElem_opt_eq_getD p (2 * i + 2) (by omega),
      Option.some_bind, Option.some_bind]
    by_cases h1 : hex_to_i (p.getD (2 * i + 1) 0) ≤ 0xF
    · rw [if_pos h1, if_pos h1]
      by_cases h0 : hex_to_i (p.getD (2 * i + 2) 0) ≤ 0xF
      · rw [if_pos h0, if_pos h0]
        by_cases hz : hex_to_i (p.getD (2 * i + 1) 0) * 16 ||| hex_to_i (p.getD (2 * i + 2) 0) = 0
        · rw [if_pos hz, if_pos hz, if_pos hlen]
        · rw [if_neg hz, if_neg hz, ih (i + 1) (by omega)]
          rfl
      · rw [if_neg h0, if_neg h0]
    · rw [if_neg h1, if_neg h1]

theorem try_hashChk_eq (p : List Nat) :
    MonaRaw.try_hashChk p = some (MonaRaw.try_hash p) := by
  unfold MonaRaw.try_hashChk MonaRaw.try_hash
  by_cases h17 : p.length = 17
  · rw [if_pos h17, if_pos h17]
    rw [packedBytesChk_eq p (by omega) 8 0 (by norm_num)]
    cases MonaRaw.packedBytes p 8 0 with
    | none => rfl
    | some packed => rfl
  · rw [if_neg h17, if_neg h17]
    by_cases h18 : p.length = 18
    · rw [if_pos h18, if_pos h18,
        getElem_opt_eq_getD p 17 (by omega), Option.map_some']
      cases hsal : decode_salt_strict (p.getD 17 0) 46 with
      | none => rfl
      | some salt =>
        rw [packedBytesChk_eq p (by omega) 8 0 (by norm_num)]
        cases MonaRaw.packedBytes p 8 0 with
        | none => rfl
        | some packed => rfl
    · rw [if_neg h18, if_neg h18]
      by_cases h19 : p.length = 19
      · rw [if_pos h19, if_pos h19,
          getElem_opt_eq_getD p 17 (by omega), getElem_opt_eq_getD p 18 (by omega),
          Option.some_bind, Option.map_some']
        cases hsal : decode_salt_strict (p.getD 17 0) (p.getD 18 0) with
        | none => rfl
        | some salt =>
          rw [packedBytesChk_eq p (by omega) 8 0 (by norm_num)]
          cases MonaRaw.packedBytes p 8 0 with
          | none => rfl
          | some packed => rfl
      · rw [if_neg h19, if_neg h19]

theorem mona_internalChk_eq (hashTen : List Nat → Mona10Hash)
    (hashTwelve : List Nat → Mona12Hash) (p : List Nat) (escape : Bool) :
    mona_internalChk hashTen hashTwelve p escape =
      some (mona_internal hashTen hashTwelve p escape) := by
  unfold mona_internalChk mona_internal
  by_cases hlen : 12 ≤ (if escape then
      (p.map fun c => ((mona_escape c).map List.length).getD 1).sum
    else p.length)
  · rw [if_pos hlen, if_pos hlen]
    have hpos : 0 < p.length := by
      cases p with
      | nil =>
        exfalso
        cases escape <;> simp at hlen
      | cons c rest => simp
    rw [getElem_opt_eq_getD p 0 hpos, Option.some_bind]
    by_cases h35 : p.getD 0 0 = 35
    · rw [if_pos h35, if_pos h35, try_hashChk_eq p]
      cases MonaRaw.try_hash p with
      | none => rfl
      | some h => rfl
    · rw [if_neg h35, if_neg h35]
      by_cases h36 : p.getD 0 0 = 36
      · rw [if_pos h36, if_pos h36]
      · rw [if_neg h36, if_neg h36]
  · rw [if_neg hlen, if_neg hlen]

theorem sc_internalChk_eq (katakanaChk : List Nat → Option Bool)
    (katakana : List Nat → Bool)
    (hk : ∀ q, 12 ≤ q.length → katakanaChk q = some (katakana q)) (p : List Nat) :
    sc_internalChk katakanaChk p = some (sc_internal katakana p) := by
  unfold sc_internalChk sc_internal
  by_cases hlen : 12 ≤ p.length
  · rw [if_pos hlen, if_pos hlen,
      getElem_opt_eq_getD p 0 (by omega), Option.some_bind]
    by_cases h35 : p.getD 0 0 = 35
    · rw [if_pos h35, if_pos h35, try_hashChk_eq p]
      cases MonaRaw.try_hash p with
      | none => rfl
      | some h => rfl
    · rw [if_neg h35, if_neg h35]
      by_cases h36 : p.getD 0 0 = 36
      · rw [if_pos h36, if_pos h36, hk p hlen, Option.map_some']
      · rw [if_neg h36, if_neg h36]
  · rw [if_neg hlen, if_neg hlen]

theorem katakanaChk_eq (q : List Nat) (hq : 12 ≤ q.length) :
    sc_password_starts_with_katakanaChk q =
      some (sc_password_starts_with_katakana q) := by
  unfold sc_password_starts_with_katakanaChk sc_password_starts_with_katakana
  rw [getElem_opt_eq_getD q 1 (by omega), Option.some_bind]
  by_cases h1 : q.getD 1 0 = 0xEF
  · rw [if_pos h1, if_pos h1, getElem_opt_eq_getD q 2 (by omega), Option.some_bind]
    by_cases h2 : q.getD 2 0 = 0xBD
    · rw [if_pos h2, if_pos h2, getElem_opt_eq_getD q 3 (by omega), Option.map_some']
    · rw [if_neg h2, if_neg h2]
      by_cases h2b : q.getD 2 0 = 0xBE
      · rw [if_pos h2b, if_pos h2b, getElem_opt_eq_getD q 3 (by omega), Option.map_some']
      · rw [if_neg h2b, if_neg h2b]
  · rw [if_neg h1, if_neg h1]

theorem fourchan_decodeChk_eq (t : List Nat) :
    FourchanHash.decodeChk t = some (FourchanHash.decode t) := by
  unfold FourchanHash.decodeChk FourchanHash.decode
  by_cases hlen : t.length ≠ 10
  · rw [if_pos hlen, if_pos hlen]
  · rw [if_neg hlen, if_neg hlen,
      getElem_opt_eq_getD t 9 (by omega), Option.map_some']

theorem mona12_decodeChk_eq (t : List Nat) :
    Mona12Hash.decodeChk t = some (Mona12Hash.decode t) := by
  unfold Mona12Hash.decodeChk Mona12Hash.decode
  by_cases hlen : t.length ≠ 12
  · rw [if_pos hlen, if_pos hlen]
  · rw [if_neg hlen, if_neg hlen,
      getElem_opt_eq_getD t 10 (by omega), getElem_opt_eq_getD t 11 (by omega),
      Option.some_bind, Option.map_some']

theorem monahash_decodeChk_eq (t : List Nat) :
    MonaHash.decodeChk t = some (MonaHash.decode t) := by
  unfold MonaHash.decodeChk MonaHash.decode
  by_cases h10 : t.length = 10
  · rw [if_pos h10, if_pos h10, fourchan_decodeChk_eq t, Option.map_some']
  · rw [if_neg h10, if_neg h10]
    by_cases h12 : t.length = 12
    · rw [if_pos h12, if_pos h12, mona12_decodeChk_eq t, Option.map_some']
    · rw [if_neg h12, if_neg h12]
      by_cases h3 : t.length = 3
      · rw [if_pos h3, if_pos h3]
      · rw [if_neg h3, if_neg h3]

theorem schash_decodeChk_eq (t : List Nat) :
    ScHash.decodeChk t = some (ScHash.decode t) := by
  unfold ScHash.decodeChk ScHash.decode
  by_cases h10 : t.length = 10
  · rw [if_pos h10, if_pos h10, fourchan_decodeChk_eq t, Option.map_some']
  · rw [if_neg h10, if_neg h10]
    by_cases h12 : t.length = 12
    · rw [if_pos h12, if_pos h12, mona12_decodeChk_eq t, Option.map_some']
    · rw [if_neg h12, if_neg h12]
      by_cases h15 : t.length = 15
      · rw [if_pos h15, if_pos h15]
      · rw [if_neg h15, if_neg h15]
        by_cases h3 : t.length = 3
        · rw [if_pos h3, if_pos h3]
        · rw [if_neg h3, if_neg h3]
          by_cases h17 : 17 ≤ t.length
          · rw [if_pos h17, if_pos h17]
          · rw [if_neg h17, if_neg h17]

theorem schash_decode_sjisChk_eq (t : List Nat) :
    ScHash.decode_from_sjisChk t = some (ScHash.decode_from_sjis t) := by
  unfold ScHash.decode_from_sjisChk ScHash.decode_from_sjis
  by_cases h10 : t.length = 10
  · rw [if_pos h10, if_pos h10, fourchan_decodeChk_eq t, Option.map_some']
  · rw [if_neg h10, if_neg h10]
    by_cases h12 : t.length = 12
    · rw [if_pos h12, if_pos h12, mona12_decodeChk_eq t, Option.map_some']
    · rw [if_neg h12, if_neg h12]
      by_cases h15 : t.length = 15
      · rw [if_pos h15, if_pos h15]
      · rw [if_neg h15, if_neg h15]
        by_cases h3 : t.length = 3
        · rw [if_pos h3, if_pos h3]
        · rw [if_neg h3, if_neg h3]

/-- C9: no public operation panics on malformed input.  Every slice
index performed by the dispatchers (`password[0]`), the katakana tests
(`password[1..4]`), the raw-key parser (positions 1–18 and the
`[2i+1..17]` slice) and the decoders (`tripcode[9]`, `tripcode[10]`,
`tripcode[11]`) is in bounds whenever it is reached: the panic-tracking
variants, in which every such read fails the computation when out of
bounds, return `some` of the plain result on every input. -/
theorem C9_no_panics (p t : List Nat) :
    Mona.hashChk p = some (Mona.hash p) ∧
    MonaNonescaping.hashChk p = some (MonaNonescaping.hash p) ∧
    Sc.hashChk p = some (Sc.hash p) ∧
    ScSjis.hashChk p = some (ScSjis.hash p) ∧
    MonaRaw.try_hashChk p = some (MonaRaw.try_hash p) ∧
    MonaHash.decodeChk t = some (MonaHash.decode t) ∧
    ScHash.decodeChk t = some (ScHash.decode t) ∧
    ScHash.decode_from_sjisChk t = some (ScHash.decode_from_sjis t) := by
  refine ⟨mona_internalChk_eq _ _ p true, mona_internalChk_eq _ _ p false,
    sc_internalChk_eq _ _ katakanaChk_eq p,
    sc_internalChk_eq _ _ ?_ p,
    try_hashChk_eq p, monahash_decodeChk_eq t, schash_decodeChk_eq t,
    schash_decode_sjisChk_eq t⟩
  intro q hq
  rw [getElem_opt_eq_getD q 1 (by omega), Option.map_some']

end Tripcode

namespace Tripcode

theorem packedBytes_tail_eq (p q : List Nat) (htail : p.drop 1 = q.drop 1) :
    ∀ fuel i, MonaRaw.packedBytes p fuel i = MonaRaw.packedBytes q fuel i := by
  have hget : ∀ k, 1 ≤ k → p.getD k 0 = q.getD k 0 := by
    intro k hk
    have hk1 : 1 + (k - 1) = k := by omega
    have h1 : ∀ l : List Nat, l.getD k 0 = (l.drop 1).getD (k - 1) 0 := by
      intro l
      rw [List.getD_eq_getElem?_getD, List.getD_eq_getElem?_getD,
        List.getElem?_drop, hk1]
    rw [h1 p, h1 q, htail]
  have hslice : ∀ m, 1 ≤ m → (p.take 17).drop m = (q.take 17).drop m := by
    intro m hm
    have hm1 : 1 + (m - 1) = m := by omega
    have h1 : ∀ l : List Nat,
        (l.take 17).drop m = ((l.drop 1).drop (m - 1)).take (17 - m) := by
      intro l
      rw [List.drop_take, List.drop_drop, hm1]
    rw [h1 p, h1 q, htail]
  intro fuel
  induction fuel with
  | zero =>
    intro i
    rfl
  | succ fuel ih =>
    intro i
    unfold MonaRaw.packedBytes
    rw [hget (2 * i + 1) (by omega), hget (2 * i + 2) (by omega),
      hslice (2 * i + 1) (by omega), ih (i + 1)]

/-- C10: `MonaRaw::try_hash` never reads the first password byte: any
two passwords of the same length and the same tail from position 1 on
(in particular, two passwords of any length differing only in byte 0)
hash to the same result — the function depends only on the length and
on bytes 1 through 18. -/
theorem C10_first_byte_independent (p q : List Nat) (hlen : p.length = q.length)
    (htail : p.drop 1 = q.drop 1) :
    MonaRaw.try_hash p = MonaRaw.try_hash q := by
  have hget : ∀ k, 1 ≤ k → p.getD k 0 = q.getD k 0 := by
    intro k hk
    have hk1 : 1 + (k - 1) = k := by omega
    have h1 : ∀ l : List Nat, l.getD k 0 = (l.drop 1).getD (k - 1) 0 := by
      intro l
      rw [List.getD_eq_getElem?_getD, List.getD_eq_getElem?_getD,
        List.getElem?_drop, hk1]
    rw [h1 p, h1 q, htail]
  unfold MonaRaw.try_hash
  rw [hlen, hget 17 (by omega), hget 18 (by omega),
    packedBytes_tail_eq p q htail 8 0]

/-- C10 witness: the valid-length passwords `#0123456789abcdef./` and
`X0123456789abcdef./`, differing only in the first byte, produce the
same raw-key result. -/
theorem C10_first_byte_witness :
    MonaRaw.try_hash
      [35, 48, 49, 50, 51, 52, 53, 54, 55, 56, 57, 97, 98, 99, 100, 101, 102, 46, 47] =
    MonaRaw.try_hash
      [88, 48, 49, 50, 51, 52, 53, 54, 55, 56, 57, 97, 98, 99, 100, 101, 102, 46, 47] :=
  C10_first_byte_independent _ _ (by decide) (by decide)

end Tripcode
